import Mathlib

/-!
Verification development for the zealous task-management core.

The definitions below are a shallow embedding of the Python sources
`src/zealous/models/task.py` and `src/zealous/services/task_service.py`:

* `datetime` values are modelled as integers (an abstract linear time stamp);
  methods that call `datetime.utcnow()` receive the current time `now : Int`
  as an explicit argument.
* `float` hour fields are modelled as rationals `ℚ`; Python's float division
  raising `ZeroDivisionError` on a zero divisor is modelled by returning
  `none` from `calculate_progress`.
* Python dictionaries (`_tasks`, the stats/result/workload dictionaries) are
  modelled as insertion-ordered association lists with lookup (`dlookup`),
  insert-or-replace (`dset`, matching `d[k] = v`) and delete (`ddel`).
* Methods that raise (`transition_to`, `transition_task`) return `Except`,
  with the error value carrying the data the Python exception message
  carries (current status and requested status).
-/

namespace Zealous

/-- Embeds `TaskStatus` of `models/task.py`. -/
inductive TaskStatus where
  | todo
  | in_progress
  | in_review
  | done
  | blocked
  | cancelled
deriving DecidableEq, Repr

/-- Embeds `TaskPriority` of `models/task.py`. -/
inductive TaskPriority where
  | critical
  | high
  | medium
  | low
deriving DecidableEq, Repr

/-- Embeds the `Task` pydantic model of `models/task.py` (field for field,
with `datetime` as `Int` and `float` as `ℚ`). -/
structure Task where
  id : Option Int
  title : String
  description : Option String
  status : TaskStatus
  priority : TaskPriority
  assignee_id : Option Int
  project_id : Option Int
  parent_task_id : Option Int
  subtask_ids : List Int
  tags : List String
  due_date : Option Int
  estimated_hours : Option ℚ
  actual_hours : Option ℚ
  created_at : Int
  updated_at : Option Int
  completed_at : Option Int
deriving DecidableEq, Repr

namespace Task

/-- Embeds `Task.is_overdue` (`models/task.py`): due date set, status not
DONE, and the current time strictly past the due date. -/
def is_overdue (now : Int) (t : Task) : Bool :=
  match t.due_date with
  | none => false
  | some d =>
    if t.status = TaskStatus.done then false
    else now > d

/-- Embeds `Task.is_blocked` (`models/task.py`). -/
def is_blocked (t : Task) : Bool :=
  t.status = TaskStatus.blocked

/-- Embeds `Task.is_completed` (`models/task.py`). -/
def is_completed (t : Task) : Bool :=
  t.status = TaskStatus.done

/-- Embeds the `valid_transitions` dictionary inside
`Task.can_transition_to` (`models/task.py`). -/
def valid_transitions : TaskStatus → List TaskStatus
  | TaskStatus.todo => [TaskStatus.in_progress, TaskStatus.cancelled]
  | TaskStatus.in_progress => [TaskStatus.in_review, TaskStatus.blocked, TaskStatus.cancelled]
  | TaskStatus.in_review => [TaskStatus.done, TaskStatus.in_progress]
  | TaskStatus.blocked => [TaskStatus.in_progress, TaskStatus.cancelled]
  | TaskStatus.done => []
  | TaskStatus.cancelled => []

/-- Embeds `Task.can_transition_to` (`models/task.py`): membership of the
target in the current status's entry of the transition dictionary. -/
def can_transition_to (t : Task) (new_status : TaskStatus) : Bool :=
  decide (new_status ∈ valid_transitions t.status)

/-- Embeds `Task.transition_to` (`models/task.py`). The `ValueError` raised
on an illegal transition becomes an `Except.error` carrying the pair
(current status, requested status) that the Python message interpolates. -/
def transition_to (now : Int) (t : Task) (new_status : TaskStatus) :
    Except (TaskStatus × TaskStatus) Task :=
  if ¬ can_transition_to t new_status then
    Except.error (t.status, new_status)
  else
    Except.ok
      { t with
        status := new_status
        updated_at := some now
        completed_at :=
          if new_status = TaskStatus.done then some now else t.completed_at }

/-- Embeds `Task.add_subtask` (`models/task.py`). -/
def add_subtask (now : Int) (t : Task) (subtask_id : Int) : Task :=
  if subtask_id ∉ t.subtask_ids then
    { t with subtask_ids := t.subtask_ids ++ [subtask_id], updated_at := some now }
  else t

/-- Embeds `Task.remove_subtask` (`models/task.py`): Python `list.remove`
drops the first occurrence. -/
def remove_subtask (now : Int) (t : Task) (subtask_id : Int) : Task :=
  if subtask_id ∈ t.subtask_ids then
    { t with subtask_ids := t.subtask_ids.eraseP (· = subtask_id), updated_at := some now }
  else t

/-- Embeds `Task.add_tag` (`models/task.py`): normalize (lower-case, trim),
skip empty and duplicate tags. -/
def add_tag (now : Int) (t : Task) (tag : String) : Task :=
  let tag := tag.toLower.trim
  if tag ≠ "" ∧ tag ∉ t.tags then
    { t with tags := t.tags ++ [tag], updated_at := some now }
  else t

/-- Embeds `Task.remove_tag` (`models/task.py`). -/
def remove_tag (now : Int) (t : Task) (tag : String) : Task :=
  let tag := tag.toLower.trim
  if tag ∈ t.tags then
    { t with tags := t.tags.eraseP (· = tag), updated_at := some now }
  else t

/-- Embeds the `status_progress` dictionary lookup (with default `0.0`)
inside `Task.calculate_progress` (`models/task.py`). -/
def status_progress_get (s : TaskStatus) : ℚ :=
  match s with
  | TaskStatus.in_progress => 25
  | TaskStatus.in_review => 75
  | TaskStatus.blocked => 50
  | _ => 0

/-- Embeds `Task.calculate_progress` (`models/task.py`). The unguarded
float division raising `ZeroDivisionError` when `estimated_hours == 0`
is modelled by `none`; every actually returned value is `some`. -/
def calculate_progress (t : Task) : Option ℚ :=
  if t.status = TaskStatus.done then some 100
  else if t.status = TaskStatus.todo then some 0
  else
    match t.estimated_hours, t.actual_hours with
    | some est, some act =>
      if est = 0 then none
      else some (min 99 (act / est * 100))
    | _, _ => some (status_progress_get t.status)

end Task

/-! ### Python dictionaries as insertion-ordered association lists -/

/-- `d.get(k)` on an insertion-ordered dictionary. -/
def dlookup {α : Type} : List (Int × α) → Int → Option α
  | [], _ => none
  | (k, v) :: rest, key => if k = key then some v else dlookup rest key

/-- `d[k] = v`: replace the value at an existing key in place, else append. -/
def dset {α : Type} : List (Int × α) → Int → α → List (Int × α)
  | [], key, v => [(key, v)]
  | (k, w) :: rest, key, v =>
    if k = key then (key, v) :: rest else (k, w) :: dset rest key v

/-- `del d[k]` (used only after a membership check). -/
def ddel {α : Type} : List (Int × α) → Int → List (Int × α)
  | [], _ => []
  | (k, w) :: rest, key => if k = key then rest else (k, w) :: ddel rest key

/-- Truthiness of a Python optional int (`None` and `0` are falsy), as used
by `if task.assignee_id` in `get_workload_distribution`. -/
def intTruthy : Option Int → Bool
  | none => false
  | some n => n ≠ 0

/-! ### The task service (`services/task_service.py`) -/

/-- Embeds the `TaskService` state: `_tasks` (dict keyed by id, insertion
ordered) and `_next_id`. -/
structure TaskService where
  tasks : List (Int × Task)
  next_id : Int
deriving DecidableEq, Repr

/-- Embeds `TaskService.__init__`. -/
def initService : TaskService := { tasks := [], next_id := 1 }

namespace TaskService

/-- Embeds `TaskService.create_task`: builds a `Task` with the pydantic
defaults of `models/task.py` (`created_at` from `datetime.utcnow`), stores
it under `_next_id`, increments the counter, returns it. -/
def create_task (svc : TaskService) (title : String) (description : Option String)
    (priority : TaskPriority) (assignee_id : Option Int) (project_id : Option Int)
    (now : Int) : TaskService × Task :=
  let task : Task :=
    { id := some svc.next_id
      title := title
      description := description
      status := TaskStatus.todo
      priority := priority
      assignee_id := assignee_id
      project_id := project_id
      parent_task_id := none
      subtask_ids := []
      tags := []
      due_date := none
      estimated_hours := none
      actual_hours := none
      created_at := now
      updated_at := none
      completed_at := none }
  ({ tasks := dset svc.tasks svc.next_id task, next_id := svc.next_id + 1 }, task)

/-- Embeds `TaskService.get_task`. -/
def get_task (svc : TaskService) (task_id : Int) : Option Task :=
  dlookup svc.tasks task_id

/-- One `**kwargs` entry of `TaskService.update_task`: a Python keyword
name together with its (typed) value. `other n` stands for a keyword whose
name `n` is none of the `Task` attribute names listed here. -/
inductive KwArg where
  | title (v : String)
  | description (v : Option String)
  | priority (v : TaskPriority)
  | assignee_id (v : Option Int)
  | due_date (v : Option Int)
  | estimated_hours (v : Option ℚ)
  | status (v : TaskStatus)
  | actual_hours (v : Option ℚ)
  | tags (v : List String)
  | completed_at (v : Option Int)
  | other (n : String)
deriving DecidableEq, Repr

/-- The Python keyword name of a `**kwargs` entry. -/
def KwArg.name : KwArg → String
  | .title _ => "title"
  | .description _ => "description"
  | .priority _ => "priority"
  | .assignee_id _ => "assignee_id"
  | .due_date _ => "due_date"
  | .estimated_hours _ => "estimated_hours"
  | .status _ => "status"
  | .actual_hours _ => "actual_hours"
  | .tags _ => "tags"
  | .completed_at _ => "completed_at"
  | .other n => n

/-- Embeds `setattr(task, field, value)` for the modelled attributes
(`other` names no modelled attribute, so it leaves the record unchanged). -/
def setattrTask (t : Task) : KwArg → Task
  | .title v => { t with title := v }
  | .description v => { t with description := v }
  | .priority v => { t with priority := v }
  | .assignee_id v => { t with assignee_id := v }
  | .due_date v => { t with due_date := v }
  | .estimated_hours v => { t with estimated_hours := v }
  | .status v => { t with status := v }
  | .actual_hours v => { t with actual_hours := v }
  | .tags v => { t with tags := v }
  | .completed_at v => { t with completed_at := v }
  | .other _ => t

/-- Embeds the `allowed_fields` set of `TaskService.update_task`. -/
def allowed_fields : List String :=
  ["title", "description", "priority", "assignee_id", "due_date", "estimated_hours"]

/-- One iteration of the `update_task` loop: apply the kwarg only when its
name is in the allow-list. -/
def applyKwarg (t : Task) (k : KwArg) : Task :=
  if k.name ∈ allowed_fields then setattrTask t k else t

/-- The whole `update_task` loop over the kwargs. -/
def applyKwargs (t : Task) (kwargs : List KwArg) : Task :=
  kwargs.foldl applyKwarg t

/-- Embeds `TaskService.update_task`: apply each kwarg whose name is in the
allow-list, then stamp `updated_at` unconditionally. -/
def update_task (svc : TaskService) (task_id : Int) (kwargs : List KwArg)
    (now : Int) : TaskService × Option Task :=
  match get_task svc task_id with
  | none => (svc, none)
  | some task =>
    let task := applyKwargs task kwargs
    let task := { task with updated_at := some now }
    ({ svc with tasks := dset svc.tasks task_id task }, some task)

/-- Embeds `TaskService.delete_task`. -/
def delete_task (svc : TaskService) (task_id : Int) : TaskService × Bool :=
  if (dlookup svc.tasks task_id).isSome then
    ({ svc with tasks := ddel svc.tasks task_id }, true)
  else (svc, false)

/-- Embeds `TaskService.assign_task`. -/
def assign_task (svc : TaskService) (task_id : Int) (assignee_id : Int)
    (now : Int) : TaskService × Option Task :=
  match get_task svc task_id with
  | none => (svc, none)
  | some task =>
    let task := { task with assignee_id := some assignee_id, updated_at := some now }
    ({ svc with tasks := dset svc.tasks task_id task }, some task)

/-- Embeds `TaskService.unassign_task`. -/
def unassign_task (svc : TaskService) (task_id : Int) (now : Int) :
    TaskService × Option Task :=
  match get_task svc task_id with
  | none => (svc, none)
  | some task =>
    let task := { task with assignee_id := none, updated_at := some now }
    ({ svc with tasks := dset svc.tasks task_id task }, some task)

/-- Embeds `TaskService.transition_task`: `None` on a missing id, otherwise
delegates to `Task.transition_to` and propagates its failure. -/
def transition_task (svc : TaskService) (task_id : Int) (new_status : TaskStatus)
    (now : Int) : Except (TaskStatus × TaskStatus) (TaskService × Option Task) :=
  match get_task svc task_id with
  | none => Except.ok (svc, none)
  | some task =>
    match task.transition_to now new_status with
    | Except.error e => Except.error e
    | Except.ok task =>
      Except.ok ({ svc with tasks := dset svc.tasks task_id task }, some task)

/-- The loop body of `TaskService.bulk_assign`, iterating over `task_ids`
with the `results` dictionary accumulated so far. -/
def bulkAssignLoop (assignee_id : Int) (now : Int) :
    TaskService → List (Int × Bool) → List Int → TaskService × List (Int × Bool)
  | svc, results, [] => (svc, results)
  | svc, results, task_id :: rest =>
    match get_task svc task_id with
    | some task =>
      let task := { task with assignee_id := some assignee_id, updated_at := some now }
      bulkAssignLoop assignee_id now
        { svc with tasks := dset svc.tasks task_id task } (dset results task_id true) rest
    | none =>
      bulkAssignLoop assignee_id now svc (dset results task_id false) rest

/-- Embeds `TaskService.bulk_assign`. -/
def bulk_assign (svc : TaskService) (task_ids : List Int) (assignee_id : Int)
    (now : Int) : TaskService × List (Int × Bool) :=
  bulkAssignLoop assignee_id now svc [] task_ids

/-- The loop body of `TaskService.bulk_transition`: transition only when the
task exists and `can_transition_to` holds, recording a boolean per id. -/
def bulkTransLoop (new_status : TaskStatus) (now : Int) :
    TaskService → List (Int × Bool) → List Int → TaskService × List (Int × Bool)
  | svc, results, [] => (svc, results)
  | svc, results, task_id :: rest =>
    match get_task svc task_id with
    | some task =>
      if task.can_transition_to new_status then
        match task.transition_to now new_status with
        | Except.ok task =>
          bulkTransLoop new_status now
            { svc with tasks := dset svc.tasks task_id task } (dset results task_id true) rest
        | Except.error _ =>
          bulkTransLoop new_status now svc (dset results task_id true) rest
      else
        bulkTransLoop new_status now svc (dset results task_id false) rest
    | none =>
      bulkTransLoop new_status now svc (dset results task_id false) rest

/-- Embeds `TaskService.bulk_transition`. -/
def bulk_transition (svc : TaskService) (task_ids : List Int)
    (new_status : TaskStatus) (now : Int) : TaskService × List (Int × Bool) :=
  bulkTransLoop new_status now svc [] task_ids

/-- Embeds the `stats` dictionary of `TaskService.get_task_stats` (its keys
are fixed up front, so a record is faithful). -/
structure TaskStats where
  total : Nat
  todo : Nat
  in_progress : Nat
  in_review : Nat
  done : Nat
  blocked : Nat
  cancelled : Nat
  overdue : Nat
deriving DecidableEq, Repr

/-- Embeds `stats[task.status.value] = stats.get(task.status.value, 0) + 1`:
every status value is one of the pre-initialised keys. -/
def bumpStatus (st : TaskStats) : TaskStatus → TaskStats
  | TaskStatus.todo => { st with todo := st.todo + 1 }
  | TaskStatus.in_progress => { st with in_progress := st.in_progress + 1 }
  | TaskStatus.in_review => { st with in_review := st.in_review + 1 }
  | TaskStatus.done => { st with done := st.done + 1 }
  | TaskStatus.blocked => { st with blocked := st.blocked + 1 }
  | TaskStatus.cancelled => { st with cancelled := st.cancelled + 1 }

/-- The second loop of `TaskService.get_task_stats`: iterate over the whole
collection, `continue` when a project filter is given and the task's project
differs, then bump the status bucket and the overdue count. -/
def statsLoop (project_id : Option Int) (now : Int) :
    TaskStats → List Task → TaskStats
  | st, [] => st
  | st, task :: rest =>
    if project_id ≠ none ∧ task.project_id ≠ project_id then
      statsLoop project_id now st rest
    else
      let st := bumpStatus st task.status
      let st := if task.is_overdue now then { st with overdue := st.overdue + 1 } else st
      statsLoop project_id now st rest

/-- Embeds `TaskService.get_task_stats`: `total` comes from a project-filtered
list, the per-status and overdue counts from a second loop that re-checks the
filter on the full collection. -/
def get_task_stats (svc : TaskService) (project_id : Option Int) (now : Int) :
    TaskStats :=
  let tasks := svc.tasks.map Prod.snd
  let tasks :=
    match project_id with
    | none => tasks
    | some pid => tasks.filter (fun t => t.project_id = some pid)
  let stats : TaskStats :=
    { total := tasks.length, todo := 0, in_progress := 0, in_review := 0
      done := 0, blocked := 0, cancelled := 0, overdue := 0 }
  statsLoop project_id now stats (svc.tasks.map Prod.snd)

/-- The loop body of `TaskService.get_workload_distribution`: the guard is
Python truthiness of `task.assignee_id` (so `None` and `0` are both falsy)
conjoined with a non-terminal status; a counted task increments the bucket
of its assignee id. -/
def workloadStep (dist : List (Int × Nat)) (task : Task) : List (Int × Nat) :=
  if intTruthy task.assignee_id ∧
      task.status ∉ [TaskStatus.done, TaskStatus.cancelled] then
    let aid := task.assignee_id.getD 0
    dset dist aid ((dlookup dist aid).getD 0 + 1)
  else dist

/-- Embeds `TaskService.get_workload_distribution`. -/
def get_workload_distribution (svc : TaskService) : List (Int × Nat) :=
  (svc.tasks.map Prod.snd).foldl workloadStep []

/-- The selection loop of `TaskService.auto_assign_task`: `min_load` starts
at `float("inf")` (modelled as `none`), `assignee` at the first candidate;
each candidate with a strictly smaller workload (`workload.get(m, 0)`)
replaces the current pick. -/
def pickAssigneeLoop (workload : List (Int × Nat)) :
    Option Nat → Int → List Int → Int
  | _, assignee, [] => assignee
  | min_load, assignee, member_id :: rest =>
    let load := (dlookup workload member_id).getD 0
    if match min_load with | none => true | some ml => load < ml then
      pickAssigneeLoop workload (some load) member_id rest
    else
      pickAssigneeLoop workload min_load assignee rest

/-- Embeds `TaskService.auto_assign_task`. -/
def auto_assign_task (svc : TaskService) (task_id : Int)
    (team_member_ids : List Int) (now : Int) : TaskService × Option Task :=
  match team_member_ids with
  | [] => (svc, none)
  | first :: _ =>
    match get_task svc task_id with
    | none => (svc, none)
    | some task =>
      let workload := get_workload_distribution svc
      let assignee := pickAssigneeLoop workload none first team_member_ids
      let task := { task with assignee_id := some assignee, updated_at := some now }
      ({ svc with tasks := dset svc.tasks task_id task }, some task)

end TaskService

/-! ### Operation sequences on a directory

`Op` enumerates the mutating operations a caller can ask of the service and
of the tasks it stores (looked up by id); `step` applies one operation's
state effect, discarding the returned value. A `transition` whose target is
illegal raises in Python before mutating anything, so its state effect is
the identity. -/

/-- One mutating call against the service or a stored task. -/
inductive Op where
  | create (title : String) (description : Option String) (priority : TaskPriority)
      (assignee_id : Option Int) (project_id : Option Int) (now : Int)
  | update (task_id : Int) (kwargs : List TaskService.KwArg) (now : Int)
  | delete (task_id : Int)
  | assign (task_id : Int) (assignee_id : Int) (now : Int)
  | unassign (task_id : Int) (now : Int)
  | transition (task_id : Int) (target : TaskStatus) (now : Int)
  | bulkAssign (task_ids : List Int) (assignee_id : Int) (now : Int)
  | bulkTransition (task_ids : List Int) (target : TaskStatus) (now : Int)
  | autoAssign (task_id : Int) (team_member_ids : List Int) (now : Int)
  | tagAdd (task_id : Int) (tag : String) (now : Int)
  | tagRemove (task_id : Int) (tag : String) (now : Int)
  | subtaskAdd (task_id : Int) (sub : Int) (now : Int)
  | subtaskRemove (task_id : Int) (sub : Int) (now : Int)

/-- Applies a task-level mutator to the stored task with the given id (the
Python caller obtains the object from the directory and mutates it in
place). A missing id is a no-op. -/
def stepTaskMethod (svc : TaskService) (task_id : Int) (f : Task → Task) :
    TaskService :=
  match TaskService.get_task svc task_id with
  | none => svc
  | some task => { svc with tasks := dset svc.tasks task_id (f task) }

/-- The state effect of one operation. -/
def step (svc : TaskService) : Op → TaskService
  | Op.create title description priority assignee_id project_id now =>
    (svc.create_task title description priority assignee_id project_id now).1
  | Op.update task_id kwargs now => (svc.update_task task_id kwargs now).1
  | Op.delete task_id => (svc.delete_task task_id).1
  | Op.assign task_id assignee_id now => (svc.assign_task task_id assignee_id now).1
  | Op.unassign task_id now => (svc.unassign_task task_id now).1
  | Op.transition task_id target now =>
    match svc.transition_task task_id target now with
    | Except.ok (svc, _) => svc
    | Except.error _ => svc
  | Op.bulkAssign task_ids assignee_id now =>
    (svc.bulk_assign task_ids assignee_id now).1
  | Op.bulkTransition task_ids target now =>
    (svc.bulk_transition task_ids target now).1
  | Op.autoAssign task_id team_member_ids now =>
    (svc.auto_assign_task task_id team_member_ids now).1
  | Op.tagAdd task_id tag now => stepTaskMethod svc task_id (Task.add_tag now · tag)
  | Op.tagRemove task_id tag now => stepTaskMethod svc task_id (Task.remove_tag now · tag)
  | Op.subtaskAdd task_id sub now => stepTaskMethod svc task_id (Task.add_subtask now · sub)
  | Op.subtaskRemove task_id sub now =>
    stepTaskMethod svc task_id (Task.remove_subtask now · sub)

/-- Runs a sequence of operations from a given state. -/
def run (svc : TaskService) : List Op → TaskService
  | [] => svc
  | op :: rest => run (step svc op) rest

/-- The ids of the tasks returned by the `create_task` calls of a sequence,
in order. -/
def created_ids (svc : TaskService) : List Op → List (Option Int)
  | [] => []
  | op :: rest =>
    match op with
    | Op.create title description priority assignee_id project_id now =>
      (svc.create_task title description priority assignee_id project_id now).2.id ::
        created_ids (step svc op) rest
    | _ => created_ids (step svc op) rest

/-- How many `create` operations a sequence contains. -/
def numCreates : List Op → Nat
  | [] => 0
  | Op.create .. :: rest => numCreates rest + 1
  | _ :: rest => numCreates rest

/-- The list `[k, k+1, ..., k+n-1]` of `n` consecutive integers. -/
def consecFrom (k : Int) : Nat → List Int
  | 0 => []
  | n + 1 => k :: consecFrom (k + 1) n

/-! ### Invariant predicates and concrete sample states -/

/-- The `completed_at` documentation invariant of a single task: the field
is populated exactly when the task currently sits in `DONE`. -/
def goodTask (t : Task) : Prop :=
  t.completed_at ≠ none ↔ t.status = TaskStatus.done

/-- The structural invariant every reachable service state enjoys: ids are
unique keys, all keys are below the allocation counter, and every stored
task satisfies `goodTask`. -/
def SInv (s : TaskService) : Prop :=
  (s.tasks.map Prod.fst).Nodup ∧
  (∀ id, id ∈ s.tasks.map Prod.fst → id < s.next_id) ∧
  (∀ id t, dlookup s.tasks id = some t → goodTask t)

/-- The sum of the six per-status counters of a stats record. -/
def sixSum (st : TaskService.TaskStats) : Nat :=
  st.todo + st.in_progress + st.in_review + st.done + st.blocked + st.cancelled

/-- A task in progress whose `estimated_hours` is the permitted value `0`
while `actual_hours` is set. -/
def zeroEstTask : Task :=
  { id := none, title := "t", description := none
    status := TaskStatus.in_progress, priority := TaskPriority.medium
    assignee_id := none, project_id := none, parent_task_id := none
    subtask_ids := [], tags := [], due_date := none
    estimated_hours := some 0, actual_hours := some 5
    created_at := 0, updated_at := none, completed_at := none }

/-- A task in progress with `estimated_hours = 10` and `actual_hours = 5`
(the worked example of the spec). -/
def tenFiveTask : Task :=
  { zeroEstTask with estimated_hours := some 10, actual_hours := some 5 }

/-- A cancelled task whose due date has passed. -/
def cancelledDueTask : Task :=
  { zeroEstTask with
    status := TaskStatus.cancelled, due_date := some 0
    estimated_hours := none, actual_hours := none }

/-- Create one task and move it to `in_review`. -/
def opsInReview : List Op :=
  [Op.create "t" none TaskPriority.medium none none 0,
   Op.transition 1 TaskStatus.in_progress 1,
   Op.transition 1 TaskStatus.in_review 2]

/-- A directory holding one `in_review` task with id 1. -/
def svcInReview : TaskService := run initService opsInReview

/-- A directory holding an `in_review` task (id 1) and a `todo` task (id 2). -/
def svcTwo : TaskService :=
  run initService (opsInReview ++ [Op.create "u" none TaskPriority.medium none none 3])

/-- Drive the `in_review` task of `opsInReview` to `done` at time 5. -/
def opsDone : List Op :=
  opsInReview ++ [Op.transition 1 TaskStatus.done 5]

/-- The stored task after `opsDone`. -/
def doneTask : Task :=
  { id := some 1, title := "t", description := none
    status := TaskStatus.done, priority := TaskPriority.medium
    assignee_id := none, project_id := none, parent_task_id := none
    subtask_ids := [], tags := [], due_date := none
    estimated_hours := none, actual_hours := none
    created_at := 0, updated_at := some 5, completed_at := some 5 }

/-- `doneTask` after an `update_task` that retitles it at time 9. -/
def doneTaskRetitled : Task :=
  { doneTask with title := "x", updated_at := some 9 }

/-- A directory holding exactly one freshly created task. -/
def svcOne : TaskService :=
  run initService [Op.create "t" none TaskPriority.medium none none 0]

/-- Example kwargs for `update_task`: one allow-listed field (`title`), one
real but non-allow-listed field (`status`), one unknown name. -/
def kwargsEx : List TaskService.KwArg :=
  [TaskService.KwArg.title "x", TaskService.KwArg.status TaskStatus.done,
   TaskService.KwArg.other "frobnicate"]

/-- The task stored in `svcOne`. -/
def taskOne : Task :=
  { id := some 1, title := "t", description := none
    status := TaskStatus.todo, priority := TaskPriority.medium
    assignee_id := none, project_id := none, parent_task_id := none
    subtask_ids := [], tags := [], due_date := none
    estimated_hours := none, actual_hours := none
    created_at := 0, updated_at := none, completed_at := none }

/-! ## Shared lemmas about the dictionary model -/

theorem dlookup_dset_self {α : Type} (l : List (Int × α)) (k : Int) (v : α) :
    dlookup (dset l k v) k = some v := by
  induction l with
  | nil => simp [dset, dlookup]
  | cons p rest ih =>
    obtain ⟨k0, v0⟩ := p
    by_cases h : k0 = k
    · simp [dset, h, dlookup]
    · simp [dset, h, dlookup, ih]

theorem dlookup_dset_ne {α : Type} (l : List (Int × α)) (k k' : Int) (v : α)
    (h : k' ≠ k) : dlookup (dset l k v) k' = dlookup l k' := by
  induction l with
  | nil => simp [dset, dlookup, Ne.symm h]
  | cons p rest ih =>
    obtain ⟨k0, v0⟩ := p
    by_cases h0 : k0 = k
    · subst h0
      simp [dset, dlookup, Ne.symm h]
    · simp [dset, h0, dlookup, ih]

theorem dlookup_ddel_ne {α : Type} (l : List (Int × α)) (k k' : Int)
    (h : k' ≠ k) : dlookup (ddel l k) k' = dlookup l k' := by
  induction l with
  | nil => simp [ddel, dlookup]
  | cons p rest ih =>
    obtain ⟨k0, v0⟩ := p
    by_cases h0 : k0 = k
    · subst h0
      simp [ddel, dlookup, Ne.symm h]
    · simp [ddel, h0, dlookup, ih]

theorem mem_keys_of_dlookup {α : Type} {l : List (Int × α)} {k : Int} {v : α}
    (h : dlookup l k = some v) : k ∈ l.map Prod.fst := by
  induction l with
  | nil => simp [dlookup] at h
  | cons p rest ih =>
    obtain ⟨k0, v0⟩ := p
    rw [List.map_cons, List.mem_cons]
    by_cases h0 : k0 = k
    · exact Or.inl h0.symm
    · simp only [dlookup, if_neg h0] at h
      exact Or.inr (ih h)

theorem dlookup_eq_none_of_not_mem {α : Type} {l : List (Int × α)} {k : Int}
    (h : k ∉ l.map Prod.fst) : dlookup l k = none := by
  induction l with
  | nil => simp [dlookup]
  | cons p rest ih =>
    obtain ⟨k0, v0⟩ := p
    rw [List.map_cons, List.mem_cons, not_or] at h
    simp only [dlookup]
    rw [if_neg (fun hh => h.1 hh.symm)]
    exact ih h.2

theorem keys_dset_mem {α : Type} (l : List (Int × α)) (k : Int) (v : α)
    (h : k ∈ l.map Prod.fst) : (dset l k v).map Prod.fst = l.map Prod.fst := by
  induction l with
  | nil => simp at h
  | cons p rest ih =>
    obtain ⟨k0, v0⟩ := p
    by_cases h0 : k0 = k
    · subst h0
      simp [dset]
    · rw [List.map_cons, List.mem_cons] at h
      have hk : k ∈ rest.map Prod.fst := by
        rcases h with heq | hm
        · exact absurd heq.symm h0
        · exact hm
      simp [dset, h0, ih hk]

theorem keys_dset_not_mem {α : Type} (l : List (Int × α)) (k : Int) (v : α)
    (h : k ∉ l.map Prod.fst) :
    (dset l k v).map Prod.fst = l.map Prod.fst ++ [k] := by
  induction l with
  | nil => simp [dset]
  | cons p rest ih =>
    obtain ⟨k0, v0⟩ := p
    rw [List.map_cons, List.mem_cons, not_or] at h
    have h0 : ¬ k0 = k := fun hh => h.1 hh.symm
    simp [dset, h0, ih h.2]

theorem keys_ddel_sublist {α : Type} (l : List (Int × α)) (k : Int) :
    ((ddel l k).map Prod.fst).Sublist (l.map Prod.fst) := by
  induction l with
  | nil => simp [ddel]
  | cons p rest ih =>
    obtain ⟨k0, v0⟩ := p
    by_cases h0 : k0 = k
    · simp only [ddel, if_pos h0, List.map_cons]
      exact List.sublist_cons_self _ _
    · simp only [ddel, if_neg h0, List.map_cons]
      exact ih.cons₂ _

theorem dlookup_ddel_self {α : Type} {l : List (Int × α)} (k : Int)
    (h : (l.map Prod.fst).Nodup) : dlookup (ddel l k) k = none := by
  induction l with
  | nil => simp [ddel, dlookup]
  | cons p rest ih =>
    obtain ⟨k0, v0⟩ := p
    rw [List.map_cons, List.nodup_cons] at h
    by_cases h0 : k0 = k
    · subst h0
      simp only [ddel, if_pos rfl]
      exact dlookup_eq_none_of_not_mem h.1
    · simp only [ddel, if_neg h0, dlookup]
      exact ih h.2

/-! ## C1: the transition table and `transition_to` -/

/-- Claim C1: for every task and every pair (current, target), the legality
predicate agrees exactly with the transition table of the spec
(Todo→{InProgress,Cancelled}, InProgress→{InReview,Blocked,Cancelled},
InReview→{Done,InProgress}, Blocked→{InProgress,Cancelled}, Done and
Cancelled terminal); `transition_to` succeeds on exactly the legal pairs,
setting `status := target`, stamping `updated_at`, and setting
`completed_at` iff the target is Done (otherwise leaving it as it was), and
on every illegal pair fails with the error carrying both states while
producing no changed task. -/
theorem C1_transition_follows_table (t : Task) (target : TaskStatus) (now : Int) :
    (t.can_transition_to target =
      decide ((t.status, target) ∈
        [(TaskStatus.todo, TaskStatus.in_progress),
         (TaskStatus.todo, TaskStatus.cancelled),
         (TaskStatus.in_progress, TaskStatus.in_review),
         (TaskStatus.in_progress, TaskStatus.blocked),
         (TaskStatus.in_progress, TaskStatus.cancelled),
         (TaskStatus.in_review, TaskStatus.done),
         (TaskStatus.in_review, TaskStatus.in_progress),
         (TaskStatus.blocked, TaskStatus.in_progress),
         (TaskStatus.blocked, TaskStatus.cancelled)]))
  ∧ (t.transition_to now target =
      if t.can_transition_to target then
        Except.ok
          { t with
            status := target
            updated_at := some now
            completed_at :=
              if target = TaskStatus.done then some now else t.completed_at }
      else Except.error (t.status, target)) := by
  constructor
  · cases ht : t.status <;> cases target <;>
      simp [Task.can_transition_to, Task.valid_transitions, ht]
  · by_cases h : t.can_transition_to target
    · simp [Task.transition_to, h]
    · simp [Task.transition_to, h]

/-! ## C6: `is_overdue` -/

/-- Claim C6: `is_overdue` is true iff the due date is set, the status is
not Done, and the current time is strictly past the due date; it is false
for a Done task even with a past due date, and true for a Cancelled task
with a past due date. -/
theorem C6_is_overdue_spec (t : Task) (now : Int) :
    (t.is_overdue now = true ↔
      ∃ d, t.due_date = some d ∧ t.status ≠ TaskStatus.done ∧ now > d)
  ∧ (t.status = TaskStatus.done → t.is_overdue now = false)
  ∧ (∀ d, t.status = TaskStatus.cancelled → t.due_date = some d → now > d →
      t.is_overdue now = true) := by
  refine ⟨?_, ?_, ?_⟩
  · cases hd : t.due_date with
    | none => simp [Task.is_overdue, hd]
    | some d =>
      by_cases hs : t.status = TaskStatus.done
      · simp [Task.is_overdue, hd, hs]
      · simp [Task.is_overdue, hd, hs]
  · intro hs
    cases hd : t.due_date <;> simp [Task.is_overdue, hd, hs]
  · intro d hs hd hlt
    simp [Task.is_overdue, hd, hs, hlt]

/-- Concrete instantiation of `C6_is_overdue_spec`: a cancelled task whose
due date (0) lies before the current time (5) is reported overdue. -/
theorem C6_is_overdue_witness : Task.is_overdue 5 cancelledDueTask = true :=
  (C6_is_overdue_spec cancelledDueTask 5).2.2 0 rfl rfl (by decide)

/-! ## C2 and C9: `calculate_progress` -/

/-- Claim C2 fails as stated: for a task that is neither Done nor Todo with
both hour fields set but `estimated_hours = 0`, `calculate_progress` does
not return `min(99, actual/estimated*100)` — the division raises
(modelled as `none`), so no percentage is returned at all. -/
theorem C2_counterexample :
    zeroEstTask.status = TaskStatus.in_progress ∧
    zeroEstTask.estimated_hours = some 0 ∧
    zeroEstTask.actual_hours = some 5 ∧
    Task.calculate_progress zeroEstTask = none := by
  refine ⟨rfl, rfl, rfl, ?_⟩
  simp [Task.calculate_progress, zeroEstTask]

/-- Claim C2, amended: `calculate_progress` is 100 for Done and 0 for Todo;
for other statuses with both hour fields set it is
`min(99, actual/estimated*100)` provided `estimated_hours ≠ 0` (and fails
with a division-by-zero error when `estimated_hours = 0`); with either hour
field missing it is the fixed estimate 25/75/50 for
InProgress/InReview/Blocked; and other than for Done the result never
reaches 100. -/
theorem C2_calculate_progress (t : Task) :
    (t.status = TaskStatus.done → t.calculate_progress = some 100)
  ∧ (t.status = TaskStatus.todo → t.calculate_progress = some 0)
  ∧ (∀ est act : ℚ, t.status ≠ TaskStatus.done → t.status ≠ TaskStatus.todo →
      t.estimated_hours = some est → t.actual_hours = some act → est ≠ 0 →
      t.calculate_progress = some (min 99 (act / est * 100)))
  ∧ (∀ est act : ℚ, t.status ≠ TaskStatus.done → t.status ≠ TaskStatus.todo →
      t.estimated_hours = some est → t.actual_hours = some act → est = 0 →
      t.calculate_progress = none)
  ∧ (t.status ≠ TaskStatus.done → t.status ≠ TaskStatus.todo →
      (t.estimated_hours = none ∨ t.actual_hours = none) →
      ((t.status = TaskStatus.in_progress → t.calculate_progress = some 25)
        ∧ (t.status = TaskStatus.in_review → t.calculate_progress = some 75)
        ∧ (t.status = TaskStatus.blocked → t.calculate_progress = some 50)))
  ∧ (∀ p : ℚ, t.status ≠ TaskStatus.done → t.calculate_progress = some p →
      p < 100) := by
  refine ⟨?_, ?_, ?_, ?_, ?_, ?_⟩
  · intro h
    simp [Task.calculate_progress, h]
  · intro h
    simp [Task.calculate_progress, h]
  · intro est act hd ht he ha hne
    simp [Task.calculate_progress, hd, ht, he, ha, hne]
  · intro est act hd ht he ha he0
    simp [Task.calculate_progress, hd, ht, he, ha, he0]
  · intro hd ht hcase
    refine ⟨?_, ?_, ?_⟩ <;> intro hs <;> rcases hcase with h | h <;>
      simp [Task.calculate_progress, hd, ht, hs, h, Task.status_progress_get]
  · intro p hd hp
    by_cases ht : t.status = TaskStatus.todo
    · simp [Task.calculate_progress, hd, ht] at hp
      subst hp
      norm_num
    · cases hest : t.estimated_hours with
      | none =>
        simp [Task.calculate_progress, hd, ht, hest] at hp
        subst hp
        cases hs : t.status <;> simp [Task.status_progress_get] <;> norm_num
      | some est =>
        cases hact : t.actual_hours with
        | none =>
          simp [Task.calculate_progress, hd, ht, hest, hact] at hp
          subst hp
          cases hs : t.status <;> simp [Task.status_progress_get] <;> norm_num
        | some act =>
          by_cases he0 : est = 0
          · simp [Task.calculate_progress, hd, ht, hest, hact, he0] at hp
          · simp [Task.calculate_progress, hd, ht, hest, hact, he0] at hp
            subst hp
            exact lt_of_le_of_lt (min_le_left _ _) (by norm_num)

/-- Concrete instantiation of `C2_calculate_progress`: the spec's worked
example, `estimated_hours = 10`, `actual_hours = 5`, gives progress 50. -/
theorem C2_calculate_progress_witness :
    Task.calculate_progress tenFiveTask = some 50 := by
  have h := (C2_calculate_progress tenFiveTask).2.2.1 10 5 (by decide) (by decide)
    rfl rfl (by norm_num)
  rw [h]
  norm_num [min_def]

/-- Claim C9: with status neither Done nor Todo and both hour fields set,
`calculate_progress` fails (division by zero, modelled as `none`) exactly
when `estimated_hours = 0`; in particular it fails on a concrete in-progress
task with `estimated_hours = 0` and `actual_hours = 5`. -/
theorem C9_progress_division_by_zero :
    (Task.calculate_progress zeroEstTask = none)
  ∧ (∀ (t : Task) (est act : ℚ),
      t.status ≠ TaskStatus.done → t.status ≠ TaskStatus.todo →
      t.estimated_hours = some est → t.actual_hours = some act →
      (t.calculate_progress = none ↔ est = 0)) := by
  constructor
  · simp [Task.calculate_progress, zeroEstTask]
  · intro t est act hd ht he ha
    by_cases he0 : est = 0
    · simp [Task.calculate_progress, hd, ht, he, ha, he0]
    · simp [Task.calculate_progress, hd, ht, he, ha, he0]

/-- Concrete instantiation of `C9_progress_division_by_zero` at the
in-progress task with `estimated_hours = 0`, `actual_hours = 5`. -/
theorem C9_progress_division_by_zero_witness :
    Task.calculate_progress zeroEstTask = none ↔ (0 : ℚ) = 0 :=
  C9_progress_division_by_zero.2 zeroEstTask 0 5 (by decide) (by decide) rfl rfl

/-! ## C3: `get_task_stats` totals -/

theorem bumpStatus_total (st : TaskService.TaskStats) (s : TaskStatus) :
    (TaskService.bumpStatus st s).total = st.total := by
  cases s <;> rfl

theorem sixSum_bumpStatus (st : TaskService.TaskStats) (s : TaskStatus) :
    sixSum (TaskService.bumpStatus st s) = sixSum st + 1 := by
  cases s <;> simp [sixSum, TaskService.bumpStatus] <;> omega

theorem statsLoop_total (pid : Option Int) (now : Int) (ts : List Task)
    (st : TaskService.TaskStats) :
    (TaskService.statsLoop pid now st ts).total = st.total := by
  induction ts generalizing st with
  | nil => rfl
  | cons task rest ih =>
    by_cases hskip : pid ≠ none ∧ task.project_id ≠ pid
    · simp only [TaskService.statsLoop, if_pos hskip]
      exact ih st
    · simp only [TaskService.statsLoop, if_neg hskip]
      rw [ih]
      split <;> rw [bumpStatus_total]

theorem statsLoop_sixSum (pid : Option Int) (now : Int) (ts : List Task)
    (st : TaskService.TaskStats) :
    sixSum (TaskService.statsLoop pid now st ts) =
      sixSum st +
        ts.countP (fun t => ! decide (pid ≠ none ∧ t.project_id ≠ pid)) := by
  induction ts generalizing st with
  | nil => rfl
  | cons task rest ih =>
    by_cases hskip : pid ≠ none ∧ task.project_id ≠ pid
    · simp only [TaskService.statsLoop, if_pos hskip]
      rw [ih, List.countP_cons]
      have hp : (! decide (pid ≠ none ∧ task.project_id ≠ pid)) = false := by
        simp [hskip]
      rw [hp]
      simp
    · simp only [TaskService.statsLoop, if_neg hskip]
      rw [ih]
      have hbump :
          sixSum (if task.is_overdue now then
              { TaskService.bumpStatus st task.status with
                overdue := (TaskService.bumpStatus st task.status).overdue + 1 }
            else TaskService.bumpStatus st task.status) =
            sixSum (TaskService.bumpStatus st task.status) := by
        split <;> rfl
      rw [hbump, sixSum_bumpStatus, List.countP_cons]
      have hp : (! decide (pid ≠ none ∧ task.project_id ≠ pid)) = true := by
        simp [hskip]
      rw [hp]
      simp
      omega

/-- Claim C3: for every directory state and every optional project filter,
the `total` entry of `get_task_stats` equals the sum of the six per-status
counts; the filtered list feeding `total` and the loop that re-checks the
filter select exactly the same tasks. -/
theorem C3_stats_total_is_sum (svc : TaskService) (pid : Option Int) (now : Int) :
    (TaskService.get_task_stats svc pid now).total =
      (TaskService.get_task_stats svc pid now).todo +
      (TaskService.get_task_stats svc pid now).in_progress +
      (TaskService.get_task_stats svc pid now).in_review +
      (TaskService.get_task_stats svc pid now).done +
      (TaskService.get_task_stats svc pid now).blocked +
      (TaskService.get_task_stats svc pid now).cancelled := by
  show _ = sixSum (TaskService.get_task_stats svc pid now)
  cases pid with
  | none =>
    simp only [TaskService.get_task_stats, statsLoop_total, statsLoop_sixSum]
    simp [sixSum]
  | some p =>
    simp only [TaskService.get_task_stats, statsLoop_total, statsLoop_sixSum]
    simp only [sixSum]
    simp only [List.countP_eq_length_filter]
    simp only [Nat.zero_add, Nat.add_zero]
    congr 1
    apply List.filter_congr
    intro t _
    by_cases h : t.project_id = some p <;> simp [h]

/-! ## C10: assignee id 0 and the workload distribution -/

theorem workloadStep_zero (dist : List (Int × Nat)) (task : Task)
    (h : dlookup dist 0 = none) :
    dlookup (TaskService.workloadStep dist task) 0 = none := by
  unfold TaskService.workloadStep
  split
  · next hg =>
    obtain ⟨ht, _⟩ := hg
    cases ha : task.assignee_id with
    | none => rw [ha] at ht; simp [intTruthy] at ht
    | some n =>
      rw [ha] at ht
      simp only [intTruthy, decide_eq_true_eq] at ht
      simp only [Option.getD_some]
      rw [dlookup_dset_ne dist n 0 _ (fun hh => ht hh.symm)]
      exact h
  · exact h

theorem workloadFold_zero (ts : List Task) :
    ∀ dist : List (Int × Nat), dlookup dist 0 = none →
      dlookup (ts.foldl TaskService.workloadStep dist) 0 = none := by
  induction ts with
  | nil => intro dist h; exact h
  | cons t rest ih =>
    intro dist h
    exact ih _ (workloadStep_zero _ _ h)

/-- Claim C10: for every directory state, the workload distribution has no
entry for assignee id 0 (the guard uses Python truthiness, so a task
assigned to user 0 counts as unassigned), and therefore the
`workload.get(member_id, 0)` expression used by `auto_assign_task` always
reads workload 0 for candidate id 0. -/
theorem C10_workload_ignores_assignee_zero (svc : TaskService) :
    dlookup (TaskService.get_workload_distribution svc) 0 = none
  ∧ (dlookup (TaskService.get_workload_distribution svc) 0).getD 0 = 0 := by
  have h : dlookup (TaskService.get_workload_distribution svc) 0 = none :=
    workloadFold_zero (svc.tasks.map Prod.snd) [] rfl
  exact ⟨h, by rw [h]; rfl⟩

/-! ## C5: the `update_task` allow-list -/

theorem applyKwarg_frame (t : Task) (k : TaskService.KwArg) :
    (TaskService.applyKwarg t k).status = t.status
  ∧ (TaskService.applyKwarg t k).id = t.id
  ∧ (TaskService.applyKwarg t k).completed_at = t.completed_at
  ∧ (TaskService.applyKwarg t k).tags = t.tags
  ∧ (TaskService.applyKwarg t k).created_at = t.created_at
  ∧ (TaskService.applyKwarg t k).actual_hours = t.actual_hours
  ∧ (TaskService.applyKwarg t k).project_id = t.project_id
  ∧ (TaskService.applyKwarg t k).parent_task_id = t.parent_task_id
  ∧ (TaskService.applyKwarg t k).subtask_ids = t.subtask_ids
  ∧ (TaskService.applyKwarg t k).updated_at = t.updated_at := by
  cases k <;> unfold TaskService.applyKwarg <;> split <;>
    first
      | exact ⟨rfl, rfl, rfl, rfl, rfl, rfl, rfl, rfl, rfl, rfl⟩
      | (rename_i hmem
         simp [TaskService.KwArg.name, TaskService.allowed_fields] at hmem)

theorem applyKwargs_frame (kwargs : List TaskService.KwArg) (t : Task) :
    (TaskService.applyKwargs t kwargs).status = t.status
  ∧ (TaskService.applyKwargs t kwargs).id = t.id
  ∧ (TaskService.applyKwargs t kwargs).completed_at = t.completed_at
  ∧ (TaskService.applyKwargs t kwargs).tags = t.tags
  ∧ (TaskService.applyKwargs t kwargs).created_at = t.created_at
  ∧ (TaskService.applyKwargs t kwargs).actual_hours = t.actual_hours
  ∧ (TaskService.applyKwargs t kwargs).project_id = t.project_id
  ∧ (TaskService.applyKwargs t kwargs).parent_task_id = t.parent_task_id
  ∧ (TaskService.applyKwargs t kwargs).subtask_ids = t.subtask_ids
  ∧ (TaskService.applyKwargs t kwargs).updated_at = t.updated_at := by
  induction kwargs generalizing t with
  | nil => exact ⟨rfl, rfl, rfl, rfl, rfl, rfl, rfl, rfl, rfl, rfl⟩
  | cons k rest ih =>
    obtain ⟨h1, h2, h3, h4, h5, h6, h7, h8, h9, h10⟩ := applyKwarg_frame t k
    obtain ⟨g1, g2, g3, g4, g5, g6, g7, g8, g9, g10⟩ := ih (TaskService.applyKwarg t k)
    exact ⟨g1.trans h1, g2.trans h2, g3.trans h3, g4.trans h4, g5.trans h5,
      g6.trans h6, g7.trans h7, g8.trans h8, g9.trans h9, g10.trans h10⟩

theorem applyKwarg_keeps_title (t : Task) (k : TaskService.KwArg)
    (h : TaskService.KwArg.name k ≠ "title") :
    (TaskService.applyKwarg t k).title = t.title := by
  cases k <;> first
    | exact absurd rfl h
    | (unfold TaskService.applyKwarg; split <;> rfl)

theorem applyKwarg_keeps_description (t : Task) (k : TaskService.KwArg)
    (h : TaskService.KwArg.name k ≠ "description") :
    (TaskService.applyKwarg t k).description = t.description := by
  cases k <;> first
    | exact absurd rfl h
    | (unfold TaskService.applyKwarg; split <;> rfl)

theorem applyKwarg_keeps_priority (t : Task) (k : TaskService.KwArg)
    (h : TaskService.KwArg.name k ≠ "priority") :
    (TaskService.applyKwarg t k).priority = t.priority := by
  cases k <;> first
    | exact absurd rfl h
    | (unfold TaskService.applyKwarg; split <;> rfl)

theorem applyKwarg_keeps_assignee (t : Task) (k : TaskService.KwArg)
    (h : TaskService.KwArg.name k ≠ "assignee_id") :
    (TaskService.applyKwarg t k).assignee_id = t.assignee_id := by
  cases k <;> first
    | exact absurd rfl h
    | (unfold TaskService.applyKwarg; split <;> rfl)

theorem applyKwarg_keeps_due_date (t : Task) (k : TaskService.KwArg)
    (h : TaskService.KwArg.name k ≠ "due_date") :
    (TaskService.applyKwarg t k).due_date = t.due_date := by
  cases k <;> first
    | exact absurd rfl h
    | (unfold TaskService.applyKwarg; split <;> rfl)

theorem applyKwarg_keeps_estimated (t : Task) (k : TaskService.KwArg)
    (h : TaskService.KwArg.name k ≠ "estimated_hours") :
    (TaskService.applyKwarg t k).estimated_hours = t.estimated_hours := by
  cases k <;> first
    | exact absurd rfl h
    | (unfold TaskService.applyKwarg; split <;> rfl)

theorem applyKwargs_keeps_title (kwargs : List TaskService.KwArg) (t : Task)
    (h : ∀ k ∈ kwargs, TaskService.KwArg.name k ≠ "title") :
    (TaskService.applyKwargs t kwargs).title = t.title := by
  induction kwargs generalizing t with
  | nil => rfl
  | cons k rest ih =>
    exact (ih _ (fun k2 hm => h k2 (List.mem_cons_of_mem _ hm))).trans
      (applyKwarg_keeps_title t k (h k (List.mem_cons_self k rest)))

theorem applyKwargs_keeps_description (kwargs : List TaskService.KwArg) (t : Task)
    (h : ∀ k ∈ kwargs, TaskService.KwArg.name k ≠ "description") :
    (TaskService.applyKwargs t kwargs).description = t.description := by
  induction kwargs generalizing t with
  | nil => rfl
  | cons k rest ih =>
    exact (ih _ (fun k2 hm => h k2 (List.mem_cons_of_mem _ hm))).trans
      (applyKwarg_keeps_description t k (h k (List.mem_cons_self k rest)))

theorem applyKwargs_keeps_priority (kwargs : List TaskService.KwArg) (t : Task)
    (h : ∀ k ∈ kwargs, TaskService.KwArg.name k ≠ "priority") :
    (TaskService.applyKwargs t kwargs).priority = t.priority := by
  induction kwargs generalizing t with
  | nil => rfl
  | cons k rest ih =>
    exact (ih _ (fun k2 hm => h k2 (List.mem_cons_of_mem _ hm))).trans
      (applyKwarg_keeps_priority t k (h k (List.mem_cons_self k rest)))

theorem applyKwargs_keeps_assignee (kwargs : List TaskService.KwArg) (t : Task)
    (h : ∀ k ∈ kwargs, TaskService.KwArg.name k ≠ "assignee_id") :
    (TaskService.applyKwargs t kwargs).assignee_id = t.assignee_id := by
  induction kwargs generalizing t with
  | nil => rfl
  | cons k rest ih =>
    exact (ih _ (fun k2 hm => h k2 (List.mem_cons_of_mem _ hm))).trans
      (applyKwarg_keeps_assignee t k (h k (List.mem_cons_self k rest)))

theorem applyKwargs_keeps_due_date (kwargs : List TaskService.KwArg) (t : Task)
    (h : ∀ k ∈ kwargs, TaskService.KwArg.name k ≠ "due_date") :
    (TaskService.applyKwargs t kwargs).due_date = t.due_date := by
  induction kwargs generalizing t with
  | nil => rfl
  | cons k rest ih =>
    exact (ih _ (fun k2 hm => h k2 (List.mem_cons_of_mem _ hm))).trans
      (applyKwarg_keeps_due_date t k (h k (List.mem_cons_self k rest)))

theorem applyKwargs_keeps_estimated (kwargs : List TaskService.KwArg) (t : Task)
    (h : ∀ k ∈ kwargs, TaskService.KwArg.name k ≠ "estimated_hours") :
    (TaskService.applyKwargs t kwargs).estimated_hours = t.estimated_hours := by
  induction kwargs generalizing t with
  | nil => rfl
  | cons k rest ih =>
    exact (ih _ (fun k2 hm => h k2 (List.mem_cons_of_mem _ hm))).trans
      (applyKwarg_keeps_estimated t k (h k (List.mem_cons_self k rest)))

theorem applyKwargs_of_no_allowed (kwargs : List TaskService.KwArg) (t : Task)
    (h : ∀ k ∈ kwargs, TaskService.KwArg.name k ∉ TaskService.allowed_fields) :
    TaskService.applyKwargs t kwargs = t := by
  induction kwargs generalizing t with
  | nil => rfl
  | cons k rest ih =>
    have hstep : TaskService.applyKwarg t k = t := by
      unfold TaskService.applyKwarg
      rw [if_neg (h k (List.mem_cons_self k rest))]
    show TaskService.applyKwargs (TaskService.applyKwarg t k) rest = t
    rw [hstep]
    exact ih _ (fun k2 hm => h k2 (List.mem_cons_of_mem _ hm))

/-- Claim C5: `update_task` on an existing id assigns only the supplied
kwargs whose names are in the allow-list {title, description, priority,
assignee_id, due_date, estimated_hours}; every other task field (status,
id, completedAt, tags, createdAt, actualHours, projectId, parentTaskId,
subtaskIds) is unchanged, a field not supplied stays unchanged, kwargs
whose names match no allow-listed field leave the task untouched apart
from the unconditional `updated_at` stamp, other stored tasks are
untouched, and on a missing id the call returns `none` with the state
unchanged. -/
theorem C5_update_task_allow_list (svc : TaskService) (task_id : Int)
    (kwargs : List TaskService.KwArg) (now : Int) :
    (TaskService.get_task svc task_id = none →
      TaskService.update_task svc task_id kwargs now = (svc, none))
  ∧ (∀ task, TaskService.get_task svc task_id = some task →
      ∃ task1,
        TaskService.update_task svc task_id kwargs now =
          ({ svc with tasks := dset svc.tasks task_id task1 }, some task1)
        ∧ task1.status = task.status
        ∧ task1.id = task.id
        ∧ task1.completed_at = task.completed_at
        ∧ task1.tags = task.tags
        ∧ task1.created_at = task.created_at
        ∧ task1.actual_hours = task.actual_hours
        ∧ task1.project_id = task.project_id
        ∧ task1.parent_task_id = task.parent_task_id
        ∧ task1.subtask_ids = task.subtask_ids
        ∧ task1.updated_at = some now
        ∧ ((∀ k ∈ kwargs, TaskService.KwArg.name k ≠ "title") →
            task1.title = task.title)
        ∧ ((∀ k ∈ kwargs, TaskService.KwArg.name k ≠ "description") →
            task1.description = task.description)
        ∧ ((∀ k ∈ kwargs, TaskService.KwArg.name k ≠ "priority") →
            task1.priority = task.priority)
        ∧ ((∀ k ∈ kwargs, TaskService.KwArg.name k ≠ "assignee_id") →
            task1.assignee_id = task.assignee_id)
        ∧ ((∀ k ∈ kwargs, TaskService.KwArg.name k ≠ "due_date") →
            task1.due_date = task.due_date)
        ∧ ((∀ k ∈ kwargs, TaskService.KwArg.name k ≠ "estimated_hours") →
            task1.estimated_hours = task.estimated_hours)
        ∧ ((∀ k ∈ kwargs, TaskService.KwArg.name k ∉ TaskService.allowed_fields) →
            task1 = { task with updated_at := some now })
        ∧ (∀ id2, id2 ≠ task_id →
            dlookup (dset svc.tasks task_id task1) id2 = dlookup svc.tasks id2)) := by
  constructor
  · intro h
    unfold TaskService.update_task
    rw [h]
  · intro task hget
    refine ⟨{ TaskService.applyKwargs task kwargs with updated_at := some now },
      ?_, ?_, ?_, ?_, ?_, ?_, ?_, ?_, ?_, ?_, rfl, ?_, ?_, ?_, ?_, ?_, ?_, ?_, ?_⟩
    · unfold TaskService.update_task
      rw [hget]
    · exact (applyKwargs_frame kwargs task).1
    · exact (applyKwargs_frame kwargs task).2.1
    · exact (applyKwargs_frame kwargs task).2.2.1
    · exact (applyKwargs_frame kwargs task).2.2.2.1
    · exact (applyKwargs_frame kwargs task).2.2.2.2.1
    · exact (applyKwargs_frame kwargs task).2.2.2.2.2.1
    · exact (applyKwargs_frame kwargs task).2.2.2.2.2.2.1
    · exact (applyKwargs_frame kwargs task).2.2.2.2.2.2.2.1
    · exact (applyKwargs_frame kwargs task).2.2.2.2.2.2.2.2.1
    · intro h
      exact applyKwargs_keeps_title kwargs task h
    · intro h
      exact applyKwargs_keeps_description kwargs task h
    · intro h
      exact applyKwargs_keeps_priority kwargs task h
    · intro h
      exact applyKwargs_keeps_assignee kwargs task h
    · intro h
      exact applyKwargs_keeps_due_date kwargs task h
    · intro h
      exact applyKwargs_keeps_estimated kwargs task h
    · intro h
      rw [applyKwargs_of_no_allowed kwargs task h]
    · intro id2 hne
      exact dlookup_dset_ne svc.tasks task_id id2 _ hne

/-- Concrete instantiation of `C5_update_task_allow_list`: updating the
single stored task with a `title` kwarg, a non-allow-listed `status` kwarg
and an unknown field name changes the title but leaves the status `todo`. -/
theorem C5_update_task_witness :
    (TaskService.update_task svcOne 1 kwargsEx 7).2.map Task.status =
      some TaskStatus.todo := by
  obtain ⟨t1, heq, hstatus, -⟩ :=
    (C5_update_task_allow_list svcOne 1 kwargsEx 7).2 taskOne rfl
  rw [heq]
  show some t1.status = some TaskStatus.todo
  rw [hstatus]
  rfl

/-! ## C8: sequential id allocation -/

theorem bulkAssignLoop_next_id (aid now : Int) (ids : List Int) :
    ∀ (svc : TaskService) (res : List (Int × Bool)),
      (TaskService.bulkAssignLoop aid now svc res ids).1.next_id = svc.next_id := by
  induction ids with
  | nil => intro svc res; rfl
  | cons id rest ih =>
    intro svc res
    unfold TaskService.bulkAssignLoop
    cases hget : TaskService.get_task svc id with
    | some task => exact ih _ _
    | none => exact ih _ _

theorem bulkTransLoop_next_id (target : TaskStatus) (now : Int) (ids : List Int) :
    ∀ (svc : TaskService) (res : List (Int × Bool)),
      (TaskService.bulkTransLoop target now svc res ids).1.next_id = svc.next_id := by
  induction ids with
  | nil => intro svc res; rfl
  | cons id rest ih =>
    intro svc res
    unfold TaskService.bulkTransLoop
    split
    · split
      · split
        · exact ih _ _
        · exact ih _ _
      · exact ih _ _
    · exact ih _ _

theorem transition_task_next_id (svc : TaskService) (id : Int)
    (target : TaskStatus) (now : Int) (s2 : TaskService) (ot : Option Task)
    (h : TaskService.transition_task svc id target now = Except.ok (s2, ot)) :
    s2.next_id = svc.next_id := by
  unfold TaskService.transition_task at h
  split at h
  · injection h with h1
    have h2 : svc = s2 := congrArg Prod.fst h1
    rw [← h2]
  · split at h
    · simp at h
    · injection h with h1
      rename_i task2 heq2
      have h2 : ({ svc with tasks := dset svc.tasks id task2 } : TaskService) = s2 :=
        congrArg Prod.fst h1
      rw [← h2]

theorem step_next_id (svc : TaskService) (op : Op) :
    (step svc op).next_id =
      match op with
      | Op.create .. => svc.next_id + 1
      | _ => svc.next_id := by
  cases op with
  | create title d p a pj now => rfl
  | update id kwargs now =>
    show (TaskService.update_task svc id kwargs now).1.next_id = svc.next_id
    unfold TaskService.update_task
    cases hget : TaskService.get_task svc id <;> rfl
  | delete id =>
    show (TaskService.delete_task svc id).1.next_id = svc.next_id
    unfold TaskService.delete_task
    split <;> rfl
  | assign id aid now =>
    show (TaskService.assign_task svc id aid now).1.next_id = svc.next_id
    unfold TaskService.assign_task
    cases hget : TaskService.get_task svc id <;> rfl
  | unassign id now =>
    show (TaskService.unassign_task svc id now).1.next_id = svc.next_id
    unfold TaskService.unassign_task
    cases hget : TaskService.get_task svc id <;> rfl
  | transition id target now =>
    simp only [step]
    split
    · rename_i s2 snd heq
      exact transition_task_next_id svc id target now s2 snd heq
    · rfl
  | bulkAssign ids aid now =>
    exact bulkAssignLoop_next_id aid now ids svc []
  | bulkTransition ids target now =>
    exact bulkTransLoop_next_id target now ids svc []
  | autoAssign id members now =>
    show (TaskService.auto_assign_task svc id members now).1.next_id = svc.next_id
    unfold TaskService.auto_assign_task
    cases members with
    | nil => rfl
    | cons first rest =>
      cases hget : TaskService.get_task svc id <;> rfl
  | tagAdd id tag now =>
    show (stepTaskMethod svc id _).next_id = svc.next_id
    unfold stepTaskMethod
    cases hget : TaskService.get_task svc id <;> rfl
  | tagRemove id tag now =>
    show (stepTaskMethod svc id _).next_id = svc.next_id
    unfold stepTaskMethod
    cases hget : TaskService.get_task svc id <;> rfl
  | subtaskAdd id sub now =>
    show (stepTaskMethod svc id _).next_id = svc.next_id
    unfold stepTaskMethod
    cases hget : TaskService.get_task svc id <;> rfl
  | subtaskRemove id sub now =>
    show (stepTaskMethod svc id _).next_id = svc.next_id
    unfold stepTaskMethod
    cases hget : TaskService.get_task svc id <;> rfl

theorem created_ids_spec (ops : List Op) :
    ∀ svc : TaskService,
      created_ids svc ops = (consecFrom svc.next_id (numCreates ops)).map some := by
  induction ops with
  | nil => intro svc; rfl
  | cons op rest ih =>
    intro svc
    cases op with
    | create title d p a pj now =>
      show some svc.next_id ::
          created_ids (step svc (Op.create title d p a pj now)) rest =
        (consecFrom svc.next_id (numCreates rest + 1)).map some
      rw [ih]
      have hnid : (step svc (Op.create title d p a pj now)).next_id =
          svc.next_id + 1 := rfl
      rw [hnid]
      rfl
    | update id kwargs now =>
      show created_ids (step svc (Op.update id kwargs now)) rest = _
      rw [ih, step_next_id]
      rfl
    | delete id =>
      show created_ids (step svc (Op.delete id)) rest = _
      rw [ih, step_next_id]
      rfl
    | assign id aid now =>
      show created_ids (step svc (Op.assign id aid now)) rest = _
      rw [ih, step_next_id]
      rfl
    | unassign id now =>
      show created_ids (step svc (Op.unassign id now)) rest = _
      rw [ih, step_next_id]
      rfl
    | transition id target now =>
      show created_ids (step svc (Op.transition id target now)) rest = _
      rw [ih, step_next_id]
      rfl
    | bulkAssign ids aid now =>
      show created_ids (step svc (Op.bulkAssign ids aid now)) rest = _
      rw [ih, step_next_id]
      rfl
    | bulkTransition ids target now =>
      show created_ids (step svc (Op.bulkTransition ids target now)) rest = _
      rw [ih, step_next_id]
      rfl
    | autoAssign id members now =>
      show created_ids (step svc (Op.autoAssign id members now)) rest = _
      rw [ih, step_next_id]
      rfl
    | tagAdd id tag now =>
      show created_ids (step svc (Op.tagAdd id tag now)) rest = _
      rw [ih, step_next_id]
      rfl
    | tagRemove id tag now =>
      show created_ids (step svc (Op.tagRemove id tag now)) rest = _
      rw [ih, step_next_id]
      rfl
    | subtaskAdd id sub now =>
      show created_ids (step svc (Op.subtaskAdd id sub now)) rest = _
      rw [ih, step_next_id]
      rfl
    | subtaskRemove id sub now =>
      show created_ids (step svc (Op.subtaskRemove id sub now)) rest = _
      rw [ih, step_next_id]
      rfl

/-! ## C4: `bulk_transition` versus `transition_task` -/

theorem transition_to_ok (now : Int) (t : Task) (target : TaskStatus)
    (h : t.can_transition_to target = true) :
    t.transition_to now target =
      Except.ok
        { t with
          status := target
          updated_at := some now
          completed_at :=
            if target = TaskStatus.done then some now else t.completed_at } := by
  simp [Task.transition_to, h]

theorem transition_to_error (now : Int) (t : Task) (target : TaskStatus)
    (h : t.can_transition_to target = false) :
    t.transition_to now target = Except.error (t.status, target) := by
  simp [Task.transition_to, h]

theorem bulkTransLoop_spec (target : TaskStatus) (now : Int) (ids : List Int) :
    ∀ (svc : TaskService) (res : List (Int × Bool)), ids.Nodup →
      ((∀ id, id ∉ ids →
          dlookup (TaskService.bulkTransLoop target now svc res ids).2 id =
            dlookup res id
        ∧ TaskService.get_task (TaskService.bulkTransLoop target now svc res ids).1 id =
            TaskService.get_task svc id)
      ∧ (∀ id, id ∈ ids →
          dlookup (TaskService.bulkTransLoop target now svc res ids).2 id =
            some (match TaskService.get_task svc id with
                  | some t => t.can_transition_to target
                  | none => false)
        ∧ TaskService.get_task (TaskService.bulkTransLoop target now svc res ids).1 id =
            (match TaskService.get_task svc id with
             | some t =>
               some (if t.can_transition_to target then
                   { t with
                     status := target
                     updated_at := some now
                     completed_at :=
                       if target = TaskStatus.done then some now else t.completed_at }
                 else t)
             | none => none))) := by
  induction ids with
  | nil =>
    intro svc res _
    constructor
    · intro id _
      exact ⟨rfl, rfl⟩
    · intro id hid
      exact absurd hid (List.not_mem_nil id)
  | cons id0 rest ih =>
    intro svc res hnd
    rw [List.nodup_cons] at hnd
    obtain ⟨hnd0, hndr⟩ := hnd
    cases hget : TaskService.get_task svc id0 with
    | some task =>
      by_cases hcan : task.can_transition_to target = true
      · have hloop : TaskService.bulkTransLoop target now svc res (id0 :: rest) =
            TaskService.bulkTransLoop target now
              { svc with
                tasks := dset svc.tasks id0
                  ({ task with
                     status := target
                     updated_at := some now
                     completed_at :=
                       if target = TaskStatus.done then some now
                       else task.completed_at }) }
              (dset res id0 true) rest := by
          simp only [TaskService.bulkTransLoop, hget]
          rw [if_pos hcan, transition_to_ok now task target hcan]
        rw [hloop]
        obtain ⟨ihf, ihm⟩ := ih _ (dset res id0 true) hndr
        constructor
        · intro id hid
          rw [List.mem_cons, not_or] at hid
          obtain ⟨hid0, hidr⟩ := hid
          obtain ⟨hres, htask⟩ := ihf id hidr
          refine ⟨?_, ?_⟩
          · rw [hres]
            exact dlookup_dset_ne res id0 id true hid0
          · rw [htask]
            exact dlookup_dset_ne svc.tasks id0 id _ hid0
        · intro id hid
          rw [List.mem_cons] at hid
          rcases hid with heq | hidr
          · subst heq
            obtain ⟨hres, htask⟩ := ihf id hnd0
            refine ⟨?_, ?_⟩
            · rw [hres, dlookup_dset_self]
              simp only [hget]
              rw [hcan]
            · rw [htask]
              show dlookup (dset svc.tasks id _) id = _
              rw [dlookup_dset_self]
              simp only [hget]
              rw [if_pos hcan]
          · have hne : id ≠ id0 := fun heq2 => hnd0 (heq2 ▸ hidr)
            obtain ⟨hres, htask⟩ := ihm id hidr
            have hsv : TaskService.get_task
                { svc with
                  tasks := dset svc.tasks id0
                    ({ task with
                       status := target
                       updated_at := some now
                       completed_at :=
                         if target = TaskStatus.done then some now
                         else task.completed_at }) } id =
                TaskService.get_task svc id :=
              dlookup_dset_ne svc.tasks id0 id _ hne
            refine ⟨?_, ?_⟩
            · rw [hres, hsv]
            · rw [htask, hsv]
      · have hcf : task.can_transition_to target = false := by
          simp only [Bool.not_eq_true] at hcan
          exact hcan
        have hloop : TaskService.bulkTransLoop target now svc res (id0 :: rest) =
            TaskService.bulkTransLoop target now svc (dset res id0 false) rest := by
          simp only [TaskService.bulkTransLoop, hget]
          rw [if_neg hcan]
        rw [hloop]
        obtain ⟨ihf, ihm⟩ := ih svc (dset res id0 false) hndr
        constructor
        · intro id hid
          rw [List.mem_cons, not_or] at hid
          obtain ⟨hid0, hidr⟩ := hid
          obtain ⟨hres, htask⟩ := ihf id hidr
          exact ⟨hres.trans (dlookup_dset_ne res id0 id false hid0), htask⟩
        · intro id hid
          rw [List.mem_cons] at hid
          rcases hid with heq | hidr
          · subst heq
            obtain ⟨hres, htask⟩ := ihf id hnd0
            refine ⟨?_, ?_⟩
            · rw [hres, dlookup_dset_self]
              simp only [hget]
              rw [hcf]
            · rw [htask]
              simp only [hget]
              rw [if_neg hcan]
          · exact ihm id hidr
    | none =>
      have hloop : TaskService.bulkTransLoop target now svc res (id0 :: rest) =
          TaskService.bulkTransLoop target now svc (dset res id0 false) rest := by
        simp only [TaskService.bulkTransLoop, hget]
      rw [hloop]
      obtain ⟨ihf, ihm⟩ := ih svc (dset res id0 false) hndr
      constructor
      · intro id hid
        rw [List.mem_cons, not_or] at hid
        obtain ⟨hid0, hidr⟩ := hid
        obtain ⟨hres, htask⟩ := ihf id hidr
        exact ⟨hres.trans (dlookup_dset_ne res id0 id false hid0), htask⟩
      · intro id hid
        rw [List.mem_cons] at hid
        rcases hid with heq | hidr
        · subst heq
          obtain ⟨hres, htask⟩ := ihf id hnd0
          refine ⟨?_, ?_⟩
          · rw [hres, dlookup_dset_self]
            simp only [hget]
          · rw [htask]
            simp only [hget]
        · exact ihm id hidr

/-- Claim C4 fails as stated on id lists with duplicates: starting from a
directory whose task 1 is `in_review`, `bulk_transition([1, 1], Done)`
returns the map `{1: false}` even though task 1 did change status (the
first pass transitioned it to `done`, the second pass then found the
transition illegal and overwrote the entry) — contradicting "only the
tasks mapped to true change status". -/
theorem C4_counterexample :
    (TaskService.bulk_transition svcInReview [1, 1] TaskStatus.done 9).2 =
      [(1, false)]
  ∧ (TaskService.get_task
        (TaskService.bulk_transition svcInReview [1, 1] TaskStatus.done 9).1 1).map
      Task.status = some TaskStatus.done
  ∧ (TaskService.get_task svcInReview 1).map Task.status =
      some TaskStatus.in_review := by
  refine ⟨?_, ?_, ?_⟩ <;> rfl

/-- Claim C4, amended to duplicate-free id lists: `bulk_transition` maps
each listed id to true exactly when the task exists and
`can_transition_to(target)` holds in the pre-state, and to false otherwise
(missing id or illegal transition); it returns a value for every input
instead of raising; exactly the tasks mapped to true change (they receive
the transition effect, every other task — and every unlisted id — is
untouched); `transition_task`, in contrast, fails with the
`InvalidTransition` error for an existing task whose transition is
illegal. -/
theorem C4_bulk_transition (svc : TaskService) (ids : List Int)
    (target : TaskStatus) (now : Int) (hnodup : ids.Nodup) :
    (∀ id ∈ ids,
        dlookup (TaskService.bulk_transition svc ids target now).2 id =
          some (match TaskService.get_task svc id with
                | some t => t.can_transition_to target
                | none => false))
  ∧ (∀ id, id ∉ ids →
      dlookup (TaskService.bulk_transition svc ids target now).2 id = none)
  ∧ (∀ id t, TaskService.get_task svc id = some t →
      TaskService.get_task (TaskService.bulk_transition svc ids target now).1 id =
        some (if id ∈ ids ∧ t.can_transition_to target = true then
            { t with
              status := target
              updated_at := some now
              completed_at :=
                if target = TaskStatus.done then some now else t.completed_at }
          else t))
  ∧ (∀ id, TaskService.get_task svc id = none →
      TaskService.get_task (TaskService.bulk_transition svc ids target now).1 id = none)
  ∧ (∀ id t, TaskService.get_task svc id = some t →
      t.can_transition_to target = false →
      TaskService.transition_task svc id target now =
        Except.error (t.status, target)) := by
  unfold TaskService.bulk_transition
  obtain ⟨hf, hm⟩ := bulkTransLoop_spec target now ids svc [] hnodup
  refine ⟨?_, ?_, ?_, ?_, ?_⟩
  · intro id hid
    exact (hm id hid).1
  · intro id hid
    exact ((hf id hid).1).trans rfl
  · intro id t hget
    by_cases hid : id ∈ ids
    · have h2 := (hm id hid).2
      rw [hget] at h2
      rw [h2]
      by_cases hcan : t.can_transition_to target = true
      · simp [hid, hcan]
      · simp [hid, hcan]
    · have h1 := (hf id hid).2
      rw [h1, hget]
      simp [hid]
  · intro id hget
    by_cases hid : id ∈ ids
    · have h2 := (hm id hid).2
      rw [hget] at h2
      exact h2
    · have h1 := (hf id hid).2
      rw [h1, hget]
  · intro id t hget hcan
    unfold TaskService.transition_task
    simp only [hget]
    rw [transition_to_error now t target hcan]

/-- Concrete instantiation of `C4_bulk_transition`: in a directory with an
`in_review` task 1 and a `todo` task 2, `bulk_transition([1, 2], Done)`
maps 1 to true and 2 to false. -/
theorem C4_bulk_transition_witness :
    dlookup (TaskService.bulk_transition svcTwo [1, 2] TaskStatus.done 9).2 1 =
      some true
  ∧ dlookup (TaskService.bulk_transition svcTwo [1, 2] TaskStatus.done 9).2 2 =
      some false := by
  have h := C4_bulk_transition svcTwo [1, 2] TaskStatus.done 9 (by decide)
  exact ⟨(h.1 1 (by decide)).trans (by rfl), (h.1 2 (by decide)).trans (by rfl)⟩

/-! ## C7: `completed_at` is set exactly by reaching Done -/

theorem can_transition_from_done (t : Task) (target : TaskStatus)
    (h : t.status = TaskStatus.done) : t.can_transition_to target = false := by
  simp [Task.can_transition_to, h, Task.valid_transitions]

theorem status_ne_done_of_can (t : Task) (target : TaskStatus)
    (h : t.can_transition_to target = true) : t.status ≠ TaskStatus.done := by
  intro hd
  rw [can_transition_from_done t target hd] at h
  exact Bool.false_ne_true h

theorem goodTask_of_eq (t t' : Task) (hs : t'.status = t.status)
    (hc : t'.completed_at = t.completed_at) (h : goodTask t) : goodTask t' := by
  unfold goodTask at h ⊢
  rw [hs, hc]
  exact h

theorem goodTask_transitioned (now : Int) (t : Task) (target : TaskStatus)
    (hcan : t.can_transition_to target = true) (hg : goodTask t) :
    goodTask
      { t with
        status := target
        updated_at := some now
        completed_at :=
          if target = TaskStatus.done then some now else t.completed_at } := by
  unfold goodTask at hg ⊢
  by_cases hd : target = TaskStatus.done
  · simp [hd]
  · have hnd := status_ne_done_of_can t target hcan
    have hcnone : t.completed_at = none := by
      by_cases hcc : t.completed_at = none
      · exact hcc
      · exact absurd (hg.mp hcc) hnd
    simp [hd, hcnone]

theorem SInv_init : SInv initService := by
  refine ⟨List.nodup_nil, ?_, ?_⟩
  · intro id hm
    simp [initService] at hm
  · intro id t hget
    simp [initService, dlookup] at hget

theorem SInv_dset_existing (s : TaskService) (id : Int) (t t' : Task)
    (hs : SInv s) (hget : dlookup s.tasks id = some t) (hgood : goodTask t') :
    SInv { s with tasks := dset s.tasks id t' } := by
  obtain ⟨hnd, hbound, hinv⟩ := hs
  have hmem : id ∈ s.tasks.map Prod.fst := mem_keys_of_dlookup hget
  have hkeys : (dset s.tasks id t').map Prod.fst = s.tasks.map Prod.fst :=
    keys_dset_mem _ _ _ hmem
  refine ⟨?_, ?_, ?_⟩
  · rw [hkeys]
    exact hnd
  · intro id2 hm
    rw [hkeys] at hm
    exact hbound id2 hm
  · intro id2 t2 hget2
    by_cases h2 : id2 = id
    · subst h2
      rw [dlookup_dset_self] at hget2
      injection hget2 with h3
      rw [← h3]
      exact hgood
    · rw [dlookup_dset_ne s.tasks id id2 t' h2] at hget2
      exact hinv id2 t2 hget2

theorem SInv_create (svc : TaskService) (title : String) (d : Option String)
    (p : TaskPriority) (a pj : Option Int) (now : Int) (hs : SInv svc) :
    SInv (TaskService.create_task svc title d p a pj now).1 := by
  obtain ⟨hnd, hbound, hinv⟩ := hs
  have hnotmem : svc.next_id ∉ svc.tasks.map Prod.fst := fun hm =>
    absurd (hbound _ hm) (lt_irrefl _)
  simp only [TaskService.create_task]
  refine ⟨?_, ?_, ?_⟩
  · rw [keys_dset_not_mem _ _ _ hnotmem]
    refine List.Nodup.append hnd (List.nodup_singleton _) ?_
    intro x hx hx2
    rw [List.mem_singleton] at hx2
    subst hx2
    exact hnotmem hx
  · intro id2 hm
    rw [keys_dset_not_mem _ _ _ hnotmem, List.mem_append, List.mem_singleton] at hm
    show id2 < svc.next_id + 1
    rcases hm with hm | hm
    · have := hbound id2 hm
      omega
    · omega
  · intro id2 t2 hget2
    show goodTask t2
    by_cases h2 : id2 = svc.next_id
    · subst h2
      rw [dlookup_dset_self] at hget2
      injection hget2 with h3
      rw [← h3]
      unfold goodTask
      simp
    · rw [dlookup_dset_ne svc.tasks svc.next_id id2 _ h2] at hget2
      exact hinv id2 t2 hget2

theorem SInv_delete (svc : TaskService) (id : Int) (hs : SInv svc) :
    SInv (TaskService.delete_task svc id).1 := by
  obtain ⟨hnd, hbound, hinv⟩ := hs
  unfold TaskService.delete_task
  split
  · refine ⟨?_, ?_, ?_⟩
    · exact hnd.sublist (keys_ddel_sublist svc.tasks id)
    · intro id2 hm
      exact hbound id2 ((keys_ddel_sublist svc.tasks id).subset hm)
    · intro id2 t2 hget2
      by_cases h2 : id2 = id
      · subst h2
        rw [dlookup_ddel_self id2 hnd] at hget2
        exact absurd hget2 (by simp)
      · rw [dlookup_ddel_ne svc.tasks id id2 h2] at hget2
        exact hinv id2 t2 hget2
  · exact ⟨hnd, hbound, hinv⟩

theorem transition_task_ok_cases (svc : TaskService) (id : Int)
    (target : TaskStatus) (now : Int) (s2 : TaskService) (ot : Option Task)
    (h : TaskService.transition_task svc id target now = Except.ok (s2, ot)) :
    (TaskService.get_task svc id = none ∧ s2 = svc)
  ∨ (∃ task, TaskService.get_task svc id = some task
      ∧ task.can_transition_to target = true
      ∧ s2 = { svc with
          tasks := dset svc.tasks id
            ({ task with
               status := target
               updated_at := some now
               completed_at :=
                 if target = TaskStatus.done then some now
                 else task.completed_at }) }) := by
  unfold TaskService.transition_task at h
  split at h
  · rename_i hget
    injection h with h1
    exact Or.inl ⟨hget, (congrArg Prod.fst h1).symm⟩
  · rename_i task hget
    split at h
    · simp at h
    · rename_i task2 htr
      injection h with h1
      unfold Task.transition_to at htr
      split at htr
      · simp at htr
      · rename_i hcan2
        have hcan : task.can_transition_to target = true := by
          by_cases hb : task.can_transition_to target = true
          · exact hb
          · exact absurd hb (fun hbb => hcan2 hbb)
        injection htr with htr2
        refine Or.inr ⟨task, hget, hcan, ?_⟩
        have hfst : ({ tasks := dset svc.tasks id task2, next_id := svc.next_id } :
            TaskService) = s2 := congrArg Prod.fst h1
        rw [← hfst, ← htr2]

theorem SInv_update (svc : TaskService) (id : Int)
    (kwargs : List TaskService.KwArg) (now : Int) (hs : SInv svc) :
    SInv (TaskService.update_task svc id kwargs now).1 := by
  unfold TaskService.update_task
  cases hget : TaskService.get_task svc id with
  | none => exact hs
  | some task =>
    exact SInv_dset_existing svc id task _ hs hget
      (goodTask_of_eq task _ (applyKwargs_frame kwargs task).1
        (applyKwargs_frame kwargs task).2.2.1 (hs.2.2 id task hget))

theorem SInv_assign (svc : TaskService) (id aid now : Int) (hs : SInv svc) :
    SInv (TaskService.assign_task svc id aid now).1 := by
  unfold TaskService.assign_task
  cases hget : TaskService.get_task svc id with
  | none => exact hs
  | some task =>
    exact SInv_dset_existing svc id task _ hs hget
      (goodTask_of_eq task _ rfl rfl (hs.2.2 id task hget))

theorem SInv_unassign (svc : TaskService) (id now : Int) (hs : SInv svc) :
    SInv (TaskService.unassign_task svc id now).1 := by
  unfold TaskService.unassign_task
  cases hget : TaskService.get_task svc id with
  | none => exact hs
  | some task =>
    exact SInv_dset_existing svc id task _ hs hget
      (goodTask_of_eq task _ rfl rfl (hs.2.2 id task hget))

theorem SInv_auto (svc : TaskService) (id : Int) (members : List Int)
    (now : Int) (hs : SInv svc) :
    SInv (TaskService.auto_assign_task svc id members now).1 := by
  unfold TaskService.auto_assign_task
  cases members with
  | nil => exact hs
  | cons first rest =>
    cases hget : TaskService.get_task svc id with
    | none => exact hs
    | some task =>
      exact SInv_dset_existing svc id task _ hs hget
        (goodTask_of_eq task _ rfl rfl (hs.2.2 id task hget))

theorem SInv_stepTaskMethod (svc : TaskService) (id : Int) (f : Task → Task)
    (hf : ∀ t, (f t).status = t.status ∧ (f t).completed_at = t.completed_at)
    (hs : SInv svc) : SInv (stepTaskMethod svc id f) := by
  unfold stepTaskMethod
  cases hget : TaskService.get_task svc id with
  | none => exact hs
  | some task =>
    exact SInv_dset_existing svc id task _ hs hget
      (goodTask_of_eq task _ (hf task).1 (hf task).2 (hs.2.2 id task hget))

theorem add_tag_sc (now : Int) (t : Task) (tag : String) :
    (Task.add_tag now t tag).status = t.status
  ∧ (Task.add_tag now t tag).completed_at = t.completed_at := by
  simp only [Task.add_tag]
  split <;> exact ⟨rfl, rfl⟩

theorem remove_tag_sc (now : Int) (t : Task) (tag : String) :
    (Task.remove_tag now t tag).status = t.status
  ∧ (Task.remove_tag now t tag).completed_at = t.completed_at := by
  simp only [Task.remove_tag]
  split <;> exact ⟨rfl, rfl⟩

theorem add_subtask_sc (now : Int) (t : Task) (sub : Int) :
    (Task.add_subtask now t sub).status = t.status
  ∧ (Task.add_subtask now t sub).completed_at = t.completed_at := by
  simp only [Task.add_subtask]
  split <;> exact ⟨rfl, rfl⟩

theorem remove_subtask_sc (now : Int) (t : Task) (sub : Int) :
    (Task.remove_subtask now t sub).status = t.status
  ∧ (Task.remove_subtask now t sub).completed_at = t.completed_at := by
  simp only [Task.remove_subtask]
  split <;> exact ⟨rfl, rfl⟩

theorem SInv_bulkAssignLoop (aid now : Int) (ids : List Int) :
    ∀ (svc : TaskService) (res : List (Int × Bool)), SInv svc →
      SInv (TaskService.bulkAssignLoop aid now svc res ids).1 := by
  induction ids with
  | nil => intro svc res hs; exact hs
  | cons id rest ih =>
    intro svc res hs
    unfold TaskService.bulkAssignLoop
    cases hget : TaskService.get_task svc id with
    | some task =>
      exact ih _ _ (SInv_dset_existing svc id task _ hs hget
        (goodTask_of_eq task _ rfl rfl (hs.2.2 id task hget)))
    | none => exact ih _ _ hs

theorem SInv_bulkTransLoop (target : TaskStatus) (now : Int) (ids : List Int) :
    ∀ (svc : TaskService) (res : List (Int × Bool)), SInv svc →
      SInv (TaskService.bulkTransLoop target now svc res ids).1 := by
  induction ids with
  | nil => intro svc res hs; exact hs
  | cons id rest ih =>
    intro svc res hs
    cases hget : TaskService.get_task svc id with
    | some task =>
      by_cases hcan : task.can_transition_to target = true
      · have hloop : TaskService.bulkTransLoop target now svc res (id :: rest) =
            TaskService.bulkTransLoop target now
              { svc with
                tasks := dset svc.tasks id
                  ({ task with
                     status := target
                     updated_at := some now
                     completed_at :=
                       if target = TaskStatus.done then some now
                       else task.completed_at }) }
              (dset res id true) rest := by
          simp only [TaskService.bulkTransLoop, hget]
          rw [if_pos hcan, transition_to_ok now task target hcan]
        rw [hloop]
        exact ih _ _ (SInv_dset_existing svc id task _ hs hget
          (goodTask_transitioned now task target hcan (hs.2.2 id task hget)))
      · have hloop : TaskService.bulkTransLoop target now svc res (id :: rest) =
            TaskService.bulkTransLoop target now svc (dset res id false) rest := by
          simp only [TaskService.bulkTransLoop, hget]
          rw [if_neg hcan]
        rw [hloop]
        exact ih _ _ hs
    | none =>
      have hloop : TaskService.bulkTransLoop target now svc res (id :: rest) =
          TaskService.bulkTransLoop target now svc (dset res id false) rest := by
        simp only [TaskService.bulkTransLoop, hget]
      rw [hloop]
      exact ih _ _ hs

theorem SInv_step (svc : TaskService) (op : Op) (hs : SInv svc) :
    SInv (step svc op) := by
  cases op with
  | create title d p a pj now => exact SInv_create svc title d p a pj now hs
  | update id kwargs now => exact SInv_update svc id kwargs now hs
  | delete id => exact SInv_delete svc id hs
  | assign id aid now => exact SInv_assign svc id aid now hs
  | unassign id now => exact SInv_unassign svc id now hs
  | transition id target now =>
    simp only [step]
    split
    · rename_i s2 snd heq
      rcases transition_task_ok_cases svc id target now s2 snd heq with
        ⟨_, hsvc⟩ | ⟨task, hget, hcan, hsvc⟩
      · rw [hsvc]
        exact hs
      · rw [hsvc]
        exact SInv_dset_existing svc id task _ hs hget
          (goodTask_transitioned now task target hcan (hs.2.2 id task hget))
    · exact hs
  | bulkAssign ids aid now => exact SInv_bulkAssignLoop aid now ids svc [] hs
  | bulkTransition ids target now => exact SInv_bulkTransLoop target now ids svc [] hs
  | autoAssign id members now => exact SInv_auto svc id members now hs
  | tagAdd id tag now =>
    exact SInv_stepTaskMethod svc id _ (fun t => add_tag_sc now t tag) hs
  | tagRemove id tag now =>
    exact SInv_stepTaskMethod svc id _ (fun t => remove_tag_sc now t tag) hs
  | subtaskAdd id sub now =>
    exact SInv_stepTaskMethod svc id _ (fun t => add_subtask_sc now t sub) hs
  | subtaskRemove id sub now =>
    exact SInv_stepTaskMethod svc id _ (fun t => remove_subtask_sc now t sub) hs

theorem SInv_run (ops : List Op) :
    ∀ svc : TaskService, SInv svc → SInv (run svc ops) := by
  induction ops with
  | nil => intro svc hs; exact hs
  | cons op rest ih =>
    intro svc hs
    exact ih (step svc op) (SInv_step svc op hs)

theorem get_task_dset_self (svc : TaskService) (id : Int) (v : Task) :
    TaskService.get_task { svc with tasks := dset svc.tasks id v } id = some v :=
  dlookup_dset_self svc.tasks id v

theorem get_task_dset_ne (svc : TaskService) (id id2 : Int) (v : Task)
    (h : id2 ≠ id) :
    TaskService.get_task { svc with tasks := dset svc.tasks id v } id2 =
      TaskService.get_task svc id2 :=
  dlookup_dset_ne svc.tasks id id2 v h

theorem completed_dset (svc : TaskService) (id2 : Int) (v : Task) (id : Int)
    (t t' : Task) (hc : v.completed_at = t.completed_at ∨ id ≠ id2)
    (hget : TaskService.get_task svc id = some t)
    (hget' : TaskService.get_task { svc with tasks := dset svc.tasks id2 v } id =
      some t') :
    t'.completed_at = t.completed_at := by
  by_cases he : id = id2
  · subst he
    rw [get_task_dset_self] at hget'
    injection hget' with h4
    rcases hc with hc | hc
    · rw [← h4]
      exact hc
    · exact absurd rfl hc
  · rw [get_task_dset_ne svc id2 id v he, hget] at hget'
    injection hget' with h4
    rw [← h4]

theorem update_task_keeps (svc : TaskService) (id2 : Int)
    (kwargs : List TaskService.KwArg) (now : Int) (id : Int) (t t' : Task)
    (hget : TaskService.get_task svc id = some t)
    (hget' : TaskService.get_task (TaskService.update_task svc id2 kwargs now).1 id =
      some t') :
    t'.completed_at = t.completed_at := by
  unfold TaskService.update_task at hget'
  cases hget2 : TaskService.get_task svc id2 with
  | none =>
    simp only [hget2] at hget'
    rw [hget] at hget'
    injection hget' with h4
    rw [← h4]
  | some task2 =>
    simp only [hget2] at hget'
    apply completed_dset svc id2 _ id t t' ?_ hget hget'
    by_cases he : id = id2
    · left
      subst he
      rw [hget] at hget2
      injection hget2 with h5
      rw [h5]
      exact (applyKwargs_frame kwargs task2).2.2.1
    · right
      exact he

theorem assign_task_keeps (svc : TaskService) (id2 aid now : Int) (id : Int)
    (t t' : Task) (hget : TaskService.get_task svc id = some t)
    (hget' : TaskService.get_task (TaskService.assign_task svc id2 aid now).1 id =
      some t') :
    t'.completed_at = t.completed_at := by
  unfold TaskService.assign_task at hget'
  cases hget2 : TaskService.get_task svc id2 with
  | none =>
    simp only [hget2] at hget'
    rw [hget] at hget'
    injection hget' with h4
    rw [← h4]
  | some task2 =>
    simp only [hget2] at hget'
    apply completed_dset svc id2 _ id t t' ?_ hget hget'
    by_cases he : id = id2
    · left
      subst he
      rw [hget] at hget2
      injection hget2 with h5
      rw [h5]
    · right
      exact he

theorem unassign_task_keeps (svc : TaskService) (id2 now : Int) (id : Int)
    (t t' : Task) (hget : TaskService.get_task svc id = some t)
    (hget' : TaskService.get_task (TaskService.unassign_task svc id2 now).1 id =
      some t') :
    t'.completed_at = t.completed_at := by
  unfold TaskService.unassign_task at hget'
  cases hget2 : TaskService.get_task svc id2 with
  | none =>
    simp only [hget2] at hget'
    rw [hget] at hget'
    injection hget' with h4
    rw [← h4]
  | some task2 =>
    simp only [hget2] at hget'
    apply completed_dset svc id2 _ id t t' ?_ hget hget'
    by_cases he : id = id2
    · left
      subst he
      rw [hget] at hget2
      injection hget2 with h5
      rw [h5]
    · right
      exact he

theorem auto_assign_keeps (svc : TaskService) (id2 : Int) (members : List Int)
    (now : Int) (id : Int) (t t' : Task)
    (hget : TaskService.get_task svc id = some t)
    (hget' : TaskService.get_task
      (TaskService.auto_assign_task svc id2 members now).1 id = some t') :
    t'.completed_at = t.completed_at := by
  unfold TaskService.auto_assign_task at hget'
  cases members with
  | nil =>
    rw [hget] at hget'
    injection hget' with h4
    rw [← h4]
  | cons first rest =>
    cases hget2 : TaskService.get_task svc id2 with
    | none =>
      simp only [hget2] at hget'
      rw [hget] at hget'
      injection hget' with h4
      rw [← h4]
    | some task2 =>
      simp only [hget2] at hget'
      apply completed_dset svc id2 _ id t t' ?_ hget hget'
      by_cases he : id = id2
      · left
        subst he
        rw [hget] at hget2
        injection hget2 with h5
        rw [h5]
      · right
        exact he

theorem stepTaskMethod_keeps (svc : TaskService) (id2 : Int) (f : Task → Task)
    (id : Int) (t t' : Task)
    (hf : ∀ u, (f u).completed_at = u.completed_at)
    (hget : TaskService.get_task svc id = some t)
    (hget' : TaskService.get_task (stepTaskMethod svc id2 f) id = some t') :
    t'.completed_at = t.completed_at := by
  unfold stepTaskMethod at hget'
  cases hget2 : TaskService.get_task svc id2 with
  | none =>
    simp only [hget2] at hget'
    rw [hget] at hget'
    injection hget' with h4
    rw [← h4]
  | some task2 =>
    simp only [hget2] at hget'
    apply completed_dset svc id2 _ id t t' ?_ hget hget'
    by_cases he : id = id2
    · left
      subst he
      rw [hget] at hget2
      injection hget2 with h5
      rw [h5]
      exact hf task2
    · right
      exact he

theorem bulkAssignLoop_keeps (aid now : Int) (ids : List Int) :
    ∀ (svc : TaskService) (res : List (Int × Bool)) (id : Int) (t : Task),
      TaskService.get_task svc id = some t →
      ∃ t2, TaskService.get_task (TaskService.bulkAssignLoop aid now svc res ids).1 id =
          some t2
        ∧ t2.completed_at = t.completed_at := by
  induction ids with
  | nil =>
    intro svc res id t hget
    exact ⟨t, hget, rfl⟩
  | cons id0 rest ih =>
    intro svc res id t hget
    unfold TaskService.bulkAssignLoop
    cases hget0 : TaskService.get_task svc id0 with
    | none => exact ih svc _ id t hget
    | some task0 =>
      by_cases he : id = id0
      · subst he
        rw [hget] at hget0
        injection hget0 with h5
        obtain ⟨t2, hg2, hc2⟩ := ih _ (dset res id true) id _ (get_task_dset_self svc id _)
        refine ⟨t2, hg2, hc2.trans ?_⟩
        rw [h5]
      · have hget3 : TaskService.get_task
            { svc with
              tasks := dset svc.tasks id0
                ({ task0 with assignee_id := some aid, updated_at := some now }) } id =
            some t := by
          rw [get_task_dset_ne svc id0 id _ he]
          exact hget
        exact ih _ (dset res id0 true) id t hget3

theorem bulkTransLoop_keeps_done (target : TaskStatus) (now : Int) (ids : List Int) :
    ∀ (svc : TaskService) (res : List (Int × Bool)) (id : Int) (t : Task),
      SInv svc → TaskService.get_task svc id = some t → t.completed_at ≠ none →
      TaskService.get_task (TaskService.bulkTransLoop target now svc res ids).1 id =
        some t := by
  induction ids with
  | nil =>
    intro svc res id t _ hget _
    exact hget
  | cons id0 rest ih =>
    intro svc res id t hs hget hc
    cases hget0 : TaskService.get_task svc id0 with
    | none =>
      have hloop : TaskService.bulkTransLoop target now svc res (id0 :: rest) =
          TaskService.bulkTransLoop target now svc (dset res id0 false) rest := by
        simp only [TaskService.bulkTransLoop, hget0]
      rw [hloop]
      exact ih svc _ id t hs hget hc
    | some task0 =>
      by_cases hcan0 : task0.can_transition_to target = true
      · by_cases he : id = id0
        · subst he
          rw [hget] at hget0
          injection hget0 with h5
          have hdone : t.status = TaskStatus.done := (hs.2.2 id t hget).mp hc
          rw [← h5] at hcan0
          rw [can_transition_from_done t target hdone] at hcan0
          exact absurd hcan0 Bool.false_ne_true
        · have hloop : TaskService.bulkTransLoop target now svc res (id0 :: rest) =
              TaskService.bulkTransLoop target now
                { svc with
                  tasks := dset svc.tasks id0
                    ({ task0 with
                       status := target
                       updated_at := some now
                       completed_at :=
                         if target = TaskStatus.done then some now
                         else task0.completed_at }) }
                (dset res id0 true) rest := by
            simp only [TaskService.bulkTransLoop, hget0]
            rw [if_pos hcan0, transition_to_ok now task0 target hcan0]
          rw [hloop]
          have hs' := SInv_dset_existing svc id0 task0 _ hs hget0
            (goodTask_transitioned now task0 target hcan0 (hs.2.2 id0 task0 hget0))
          have hget3 : TaskService.get_task
              { svc with
                tasks := dset svc.tasks id0
                  ({ task0 with
                     status := target
                     updated_at := some now
                     completed_at :=
                       if target = TaskStatus.done then some now
                       else task0.completed_at }) } id = some t := by
            rw [get_task_dset_ne svc id0 id _ he]
            exact hget
          exact ih _ (dset res id0 true) id t hs' hget3 hc
      · have hloop : TaskService.bulkTransLoop target now svc res (id0 :: rest) =
            TaskService.bulkTransLoop target now svc (dset res id0 false) rest := by
          simp only [TaskService.bulkTransLoop, hget0]
          rw [if_neg hcan0]
        rw [hloop]
        exact ih svc _ id t hs hget hc

theorem step_keeps_completed (svc : TaskService) (op : Op) (id : Int)
    (t t' : Task) (c : Int) (hs : SInv svc)
    (hget : TaskService.get_task svc id = some t)
    (hc : t.completed_at = some c)
    (hget' : TaskService.get_task (step svc op) id = some t') :
    t'.completed_at = some c := by
  cases op with
  | create title d p a pj now =>
    simp only [step, TaskService.create_task, TaskService.get_task] at hget'
    have hb := hs.2.1 id (mem_keys_of_dlookup hget)
    have hne : id ≠ svc.next_id := by omega
    rw [dlookup_dset_ne svc.tasks svc.next_id id _ hne] at hget'
    have hget0 : dlookup svc.tasks id = some t := hget
    rw [hget0] at hget'
    injection hget' with h4
    rw [← h4]
    exact hc
  | update id2 kwargs now =>
    exact (update_task_keeps svc id2 kwargs now id t t' hget hget').trans hc
  | delete id2 =>
    simp only [step, TaskService.delete_task] at hget'
    split at hget'
    · by_cases he : id = id2
      · subst he
        have hget2 : dlookup (ddel svc.tasks id) id = some t' := hget'
        rw [dlookup_ddel_self id hs.1] at hget2
        exact absurd hget2 (by simp)
      · have hget2 : dlookup (ddel svc.tasks id2) id = some t' := hget'
        rw [dlookup_ddel_ne svc.tasks id2 id he] at hget2
        have hget0 : dlookup svc.tasks id = some t := hget
        rw [hget0] at hget2
        injection hget2 with h4
        rw [← h4]
        exact hc
    · rw [hget] at hget'
      injection hget' with h4
      rw [← h4]
      exact hc
  | assign id2 aid now =>
    exact (assign_task_keeps svc id2 aid now id t t' hget hget').trans hc
  | unassign id2 now =>
    exact (unassign_task_keeps svc id2 now id t t' hget hget').trans hc
  | transition id2 target now =>
    simp only [step] at hget'
    split at hget'
    · rename_i s2 snd heq
      rcases transition_task_ok_cases svc id2 target now s2 snd heq with
        ⟨_, hsvc⟩ | ⟨task2, hget2, hcan2, hsvc⟩
      · rw [hsvc, hget] at hget'
        injection hget' with h4
        rw [← h4]
        exact hc
      · rw [hsvc] at hget'
        by_cases he : id = id2
        · subst he
          rw [hget] at hget2
          injection hget2 with h5
          have hdone : t.status = TaskStatus.done :=
            (hs.2.2 id t hget).mp (by rw [hc]; simp)
          rw [← h5] at hcan2
          rw [can_transition_from_done t target hdone] at hcan2
          exact absurd hcan2 Bool.false_ne_true
        · rw [get_task_dset_ne svc id2 id _ he, hget] at hget'
          injection hget' with h4
          rw [← h4]
          exact hc
    · rw [hget] at hget'
      injection hget' with h4
      rw [← h4]
      exact hc
  | bulkAssign ids aid now =>
    simp only [step, TaskService.bulk_assign] at hget'
    obtain ⟨t2, hg2, hc2⟩ := bulkAssignLoop_keeps aid now ids svc [] id t hget
    rw [hg2] at hget'
    injection hget' with h4
    rw [← h4]
    exact hc2.trans hc
  | bulkTransition ids target now =>
    simp only [step, TaskService.bulk_transition] at hget'
    have hkeep := bulkTransLoop_keeps_done target now ids svc [] id t hs hget
      (by rw [hc]; simp)
    rw [hkeep] at hget'
    injection hget' with h4
    rw [← h4]
    exact hc
  | autoAssign id2 members now =>
    exact (auto_assign_keeps svc id2 members now id t t' hget hget').trans hc
  | tagAdd id2 tag now =>
    exact (stepTaskMethod_keeps svc id2 _ id t t'
      (fun u => (add_tag_sc now u tag).2) hget hget').trans hc
  | tagRemove id2 tag now =>
    exact (stepTaskMethod_keeps svc id2 _ id t t'
      (fun u => (remove_tag_sc now u tag).2) hget hget').trans hc
  | subtaskAdd id2 sub now =>
    exact (stepTaskMethod_keeps svc id2 _ id t t'
      (fun u => (add_subtask_sc now u sub).2) hget hget').trans hc
  | subtaskRemove id2 sub now =>
    exact (stepTaskMethod_keeps svc id2 _ id t t'
      (fun u => (remove_subtask_sc now u sub).2) hget hget').trans hc

/-- Claim C7: for every task reachable from a fresh directory by any
sequence of directory and task operations, `completed_at` is populated iff
the task's current status is Done (equivalent to having at some point
reached Done, since Done has no outgoing transitions and the `update_task`
allow-list excludes status and completed_at), and no further operation
ever clears or changes a populated `completed_at`. -/
theorem C7_completed_iff_done (ops : List Op) :
    (∀ id t, TaskService.get_task (run initService ops) id = some t →
        (t.completed_at ≠ none ↔ t.status = TaskStatus.done))
  ∧ (∀ (op : Op) (id : Int) (t t' : Task) (c : Int),
      TaskService.get_task (run initService ops) id = some t →
      t.completed_at = some c →
      TaskService.get_task (step (run initService ops) op) id = some t' →
      t'.completed_at = some c) := by
  have hs : SInv (run initService ops) := SInv_run ops initService SInv_init
  exact ⟨fun id t hget => hs.2.2 id t hget,
    fun op id t t' c hget hc hget' =>
      step_keeps_completed (run initService ops) op id t t' c hs hget hc hget'⟩

/-- Concrete instantiation of `C7_completed_iff_done`: after creating a
task and driving it Todo → InProgress → InReview → Done (Done reached at
time 5), a later `update_task` that retitles the task leaves
`completed_at = 5` in place. -/
theorem C7_completed_iff_done_witness : doneTaskRetitled.completed_at = some 5 :=
  (C7_completed_iff_done opsDone).2
    (Op.update 1 [TaskService.KwArg.title "x"] 9) 1 doneTask doneTaskRetitled 5
    rfl rfl rfl

/-- Claim C8: over every sequence of directory operations starting from a
fresh service, the tasks returned by the successive `create_task` calls
carry the ids 1, 2, 3, …, in order — ids start at 1, increase by exactly 1
per creation, and are never reused regardless of interleaved deletions or
any other operations. -/
theorem C8_created_ids_sequential (ops : List Op) :
    created_ids initService ops = (consecFrom 1 (numCreates ops)).map some :=
  created_ids_spec ops initService

end Zealous
